import Mathlib

/-!
# dns-server: the wire-protocol engine of `SimpleDnsServer`

A shallow embedding of `src/src/simple_dns_server.cpp` (name decoder,
record lookup, response builder, one query/response cycle, `AddRecord`,
`Stop`, `Initialize`) and of `ConfigLoader::ValidateConfig` from
`src/src/config_loader.cpp`, and the properties of them that the
specification states.

Conventions of the embedding.

* An `unsigned char` is a `Byte` (`Fin 256`); a `std::string`, a
  `std::span<const unsigned char>` and a `std::vector<unsigned char>` are
  lists of bytes.
* An access outside a span or vector (undefined behaviour in the source) is
  the result `Except.error Fault.outOfBounds`.
* The `while` loop of `ExtractDomainName` is run with a fuel counter that
  the wrapper sets to `buffer.length + 1`.
* The byte order of the host and the indeterminate initial contents of the
  local `struct in_addr addr` are explicit parameters of the builder.
* The return values of `socket` and `bind` are parameters of `Initialize`;
  `Initialize` and `Stop` return the handles they pass to `closesocket`.
-/

set_option maxRecDepth 100000

namespace DnsServer

/-! ## Bytes, strings, spans -/

/-- An `unsigned char`. -/
abbrev Byte := Fin 256

/-- A `std::string`, as its sequence of bytes. -/
abbrev Str := List Byte

/-- The bytes of an ASCII literal. -/
def str (s : String) : Str := s.toList.map (fun c => Fin.ofNat c.toNat)

/-- The separator character `'.'`. -/
def dot : Byte := 46

/-- Ways in which an execution leaves defined behaviour (or the model's loop bound). -/
inductive Fault where
  | outOfBounds
  | outOfFuel
  deriving DecidableEq, Repr

instance instDecidableEqExcept {ε α : Type} [DecidableEq ε] [DecidableEq α] :
    DecidableEq (Except ε α)
  | .ok a, .ok b =>
    if h : a = b then isTrue (by rw [h]) else isFalse (fun h2 => h (Except.ok.inj h2))
  | .error a, .error b =>
    if h : a = b then isTrue (by rw [h]) else isFalse (fun h2 => h (Except.error.inj h2))
  | .ok _, .error _ => isFalse (fun h => Except.noConfusion h)
  | .error _, .ok _ => isFalse (fun h => Except.noConfusion h)

/-- The element access `buffer[i]` of a span or vector: defined only for `i < size`. -/
def index (buffer : List Byte) (i : Nat) : Except Fault Byte :=
  match buffer[i]? with
  | some b => .ok b
  | none => .error .outOfBounds

/-- The view `buffer.subspan(offset, count)`: defined only when the window lies in the span. -/
def subspan (buffer : List Byte) (offset count : Nat) : Except Fault (List Byte) :=
  if offset + count ≤ buffer.length then .ok ((buffer.drop offset).take count)
  else .error .outOfBounds

/-- The assignment `response[i] = x` on a vector: defined only for `i < size`. -/
def assign (response : List Byte) (i : Nat) (x : Byte) : Except Fault (List Byte) :=
  if i < response.length then .ok (response.set i x) else .error .outOfBounds

/-! ## `SimpleDnsServer::ExtractDomainName` (simple_dns_server.cpp 69-96) -/

/-- The `while (len != 0)` loop of `ExtractDomainName`; the state is
`(domain, position, len)`, the result is the state at loop exit. -/
def ExtractDomainName.loop (buffer : List Byte) :
    Nat → Str → Nat → Nat → Except Fault (Str × Nat)
  | 0, _, _, _ => .error .outOfFuel
  | fuel + 1, domain, position, len =>
    if len = 0 then .ok (domain, position)
    else if len &&& 0xC0 = 0xC0 then .ok (domain, position + 2)
    else
      match subspan buffer (position + 1) len with
      | .error f => .error f
      | .ok label_view =>
        match index buffer (position + 1 + len) with
        | .error f => .error f
        | .ok b =>
          ExtractDomainName.loop buffer fuel (domain ++ label_view ++ [dot])
            (position + 1 + len) b.val

/-- The tail of `ExtractDomainName`: drop one trailing `'.'` if the name has one. -/
def popTrailingDot (domain : Str) : Str :=
  if domain.getLast? = some dot then domain.dropLast else domain

/-- `ExtractDomainName(buffer, position)`: the returned name and the final
value of the in/out parameter `position`. -/
def ExtractDomainName (buffer : List Byte) (position : Nat) : Except Fault (Str × Nat) :=
  match index buffer position with
  | .error f => .error f
  | .ok b =>
    match ExtractDomainName.loop buffer (buffer.length + 1) [] position b.val with
    | .error f => .error f
    | .ok (domain, position) => .ok (popTrailingDot domain, position + 1)

/-! ## The record store and the server state (simple_dns_server.h 58-62) -/

/-- A `std::map<std::string, std::string>`: its entries, keys pairwise different. -/
structure StdMap where
  entries : List (Str × Str)
  deriving DecidableEq, Repr

/-- The invariant of a `std::map`: no key occurs twice. -/
def StdMap.UniqueKeys (m : StdMap) : Prop := (m.entries.map Prod.fst).Nodup

instance instDecidableUniqueKeys (m : StdMap) : Decidable m.UniqueKeys := by
  unfold StdMap.UniqueKeys; infer_instance

/-- Search the entries of a map for a key equal to `key`. -/
def findEntry : List (Str × Str) → Str → Option Str
  | [], _ => none
  | (k, v) :: rest, key => if k = key then some v else findEntry rest key

/-- The lookup `m.find(key)`, as the mapped value when the key is present. -/
def StdMap.find (m : StdMap) (key : Str) : Option Str := findEntry m.entries key

/-- The value of `INVALID_SOCKET` on the non-Windows branch of the header. -/
def INVALID_SOCKET : Int := -1

/-- The data members of `SimpleDnsServer`, with their default member initialisers. -/
structure SimpleDnsServer where
  sockfd_ : Int := INVALID_SOCKET
  dns_records_ : StdMap := ⟨[]⟩
  is_running_ : Bool := false
  default_ip_ : Str := str "127.0.0.1"
  log_queries_ : Bool := true
  deriving DecidableEq, Repr

/-- `SimpleDnsServer::FindIpForDomain` (simple_dns_server.cpp 98-104). -/
def FindIpForDomain (self : SimpleDnsServer) (domain : Str) : Option Str :=
  match self.dns_records_.find domain with
  | some second => some second
  | none => none

/-! ## `inet_pton`, `ntohl`, `std::bit_cast` -/

/-- The object representation of a `struct in_addr`: four bytes at increasing addresses. -/
structure in_addr where
  m0 : Byte
  m1 : Byte
  m2 : Byte
  m3 : Byte
  deriving DecidableEq, Repr

/-- The C string a `char` pointer designates: the bytes before the first NUL. -/
def c_str (s : Str) : Str := s.takeWhile (fun b => b ≠ 0)

/-- Scanner state of the C library's dotted-decimal parser: the octets
finished so far, the octet in progress, and the flags it keeps. -/
structure Pton4 where
  saw_digit : Bool
  octets : Nat
  done : List Nat
  cur : Nat
  deriving DecidableEq, Repr

/-- One character of the C library's dotted-decimal parser; `none` is its `return 0`. -/
def Pton4.step (st : Pton4) (ch : Byte) : Option Pton4 :=
  if 48 ≤ ch.val ∧ ch.val ≤ 57 then
    if st.saw_digit = true ∧ st.cur = 0 then none
    else if st.cur * 10 + (ch.val - 48) > 255 then none
    else if st.saw_digit = false then
      if st.octets + 1 > 4 then none
      else some { st with saw_digit := true, octets := st.octets + 1,
                          cur := st.cur * 10 + (ch.val - 48) }
    else some { st with cur := st.cur * 10 + (ch.val - 48) }
  else if ch = dot ∧ st.saw_digit = true then
    if st.octets = 4 then none
    else some { st with saw_digit := false, done := st.done ++ [st.cur], cur := 0 }
  else none

/-- Run the parser over the characters of a C string. -/
def Pton4.run : Pton4 → Str → Option Pton4
  | st, [] => some st
  | st, ch :: rest =>
    match st.step ch with
    | none => none
    | some st2 => Pton4.run st2 rest

/-- The library call `inet_pton(AF_INET, src, &addr)`: `some` of the four
bytes it stores (in network byte order) when it returns 1, `none` when it
does not (and then `addr` is left as it was). Accepts exactly four decimal
numbers 0..255 without leading zeros, separated by single dots. -/
def inet_pton (src : Str) : Option in_addr :=
  match Pton4.run ⟨false, 0, [], 0⟩ (c_str src) with
  | none => none
  | some st =>
    if st.octets < 4 then none
    else
      match st.done ++ [st.cur] with
      | [a, b, c, d] => some ⟨Fin.ofNat a, Fin.ofNat b, Fin.ofNat c, Fin.ofNat d⟩
      | _ => none

/-- The byte order of the machine the server runs on. -/
inductive ByteOrder where
  | littleEndian
  | bigEndian
  deriving DecidableEq, Repr

/-- The `uint32_t` value the host reads from four bytes of memory (`addr.s_addr`). -/
def s_addr (host : ByteOrder) (addr : in_addr) : Nat :=
  match host with
  | .littleEndian =>
    addr.m0.val + addr.m1.val * 256 + addr.m2.val * 65536 + addr.m3.val * 16777216
  | .bigEndian =>
    addr.m3.val + addr.m2.val * 256 + addr.m1.val * 65536 + addr.m0.val * 16777216

/-- The library function `ntohl`: the identity on a big-endian host, a byte swap on a
little-endian one. -/
def ntohl (host : ByteOrder) (v : Nat) : Nat :=
  match host with
  | .bigEndian => v % 4294967296
  | .littleEndian =>
    (v % 256) * 16777216 + (v / 256 % 256) * 65536 + (v / 65536 % 256) * 256
      + v / 16777216 % 256

/-- `std::bit_cast<std::array<unsigned char, 4>>(ip_num)`: the four bytes the host
stores for a `uint32_t`, at increasing addresses. -/
def bit_cast (host : ByteOrder) (ip_num : Nat) : List Byte :=
  match host with
  | .littleEndian =>
    [Fin.ofNat ip_num, Fin.ofNat (ip_num / 256), Fin.ofNat (ip_num / 65536),
     Fin.ofNat (ip_num / 16777216)]
  | .bigEndian =>
    [Fin.ofNat (ip_num / 16777216), Fin.ofNat (ip_num / 65536), Fin.ofNat (ip_num / 256),
     Fin.ofNat ip_num]

/-! ## `SimpleDnsServer::CreateDnsResponse` (simple_dns_server.cpp 106-141) -/

/-- The constant `answer` array of `CreateDnsResponse`. -/
def answer : List Byte :=
  [0xC0, 0x0C,              -- Compressed name pointer
   0x00, 0x01,              -- Type A
   0x00, 0x01,              -- Class IN
   0x00, 0x00, 0x01, 0x2C,  -- TTL 300
   0x00, 0x04]              -- Data length

/-- The contents of the local `addr` after the two `inet_pton` calls of
`CreateDnsResponse`; `uninit` is what the variable held before them. -/
def resolveAddr (uninit : in_addr) (default_ip_ ip : Str) : in_addr :=
  match inet_pton ip with
  | some addr => addr
  | none =>
    match inet_pton default_ip_ with
    | some addr => addr
    | none => uninit

/-- `CreateDnsResponse(query, ip)` on a host of the given byte order. -/
def CreateDnsResponse (host : ByteOrder) (uninit : in_addr) (self : SimpleDnsServer)
    (query : List Byte) (ip : Str) : Except Fault (List Byte) :=
  match assign query 2 0x81 with
  | .error f => .error f
  | .ok r2 =>
    match assign r2 3 0x80 with
    | .error f => .error f
    | .ok r3 =>
      match assign r3 7 1 with
      | .error f => .error f
      | .ok r7 =>
        let addr := resolveAddr uninit self.default_ip_ ip
        let ip_num := ntohl host (s_addr host addr)
        .ok (r7 ++ answer ++ bit_cast host ip_num)

/-! ## `SimpleDnsServer::HandleDnsQuery` (simple_dns_server.cpp 143-185) -/

/-- A peer address as captured by `recvfrom` in `client_addr`. -/
abbrev Endpoint := Nat

/-- What one `recvfrom` call leaves behind: its return value, the 512-byte
receive array, and the sender. -/
structure Received where
  bytes_received : Int
  buffer : List Byte
  client_addr : Endpoint
  deriving DecidableEq, Repr

/-- The lines `HandleDnsQuery` prints when `log_queries_` is set. -/
inductive LogLine where
  | query (client : Endpoint) (domain : Str)
  | found (ip domain : Str)
  | notFound (domain ip : Str)
  deriving DecidableEq, Repr

/-- The calls one cycle makes, in program order. -/
inductive Event where
  | decode (query_span : List Byte) (position : Nat)
  | println (line : LogLine)
  | sendto (response : List Byte) (client : Endpoint)
  deriving DecidableEq, Repr

/-- The address `HandleDnsQuery` resolves for a decoded name:
`FindIpForDomain(domain).and_then(identity).value_or(default_ip_)`. -/
def resolveIp (self : SimpleDnsServer) (domain : Str) : Str :=
  ((FindIpForDomain self domain).bind (fun found_ip => some found_ip)).getD self.default_ip_

/-- One query/response cycle after `recvfrom` has returned `rx`: the server
state afterwards and the calls made. -/
def HandleDnsQuery (host : ByteOrder) (uninit : in_addr) (self : SimpleDnsServer)
    (rx : Received) : Except Fault (SimpleDnsServer × List Event) :=
  if rx.bytes_received < 12 then .ok (self, [])
  else
    match subspan rx.buffer 0 rx.bytes_received.toNat with
    | .error f => .error f
    | .ok query_span =>
      match ExtractDomainName query_span 12 with
      | .error f => .error f
      | .ok (domain, _) =>
        let log1 : List Event :=
          if self.log_queries_ then [.println (.query rx.client_addr domain)] else []
        let ip := resolveIp self domain
        let log2 : List Event :=
          if self.log_queries_ then
            (if ip ≠ self.default_ip_ then [.println (.found ip domain)]
             else [.println (.notFound domain ip)])
          else []
        match CreateDnsResponse host uninit self query_span ip with
        | .error f => .error f
        | .ok response =>
          .ok (self, [.decode query_span 12] ++ log1 ++ log2
                      ++ [.sendto response rx.client_addr])

/-- The datagrams a trace hands to `sendto`. -/
def sentResponses : List Event → List (List Byte × Endpoint)
  | [] => []
  | .sendto response client :: rest => (response, client) :: sentResponses rest
  | _ :: rest => sentResponses rest

/-- The number of times a trace enters the name decoder. -/
def decoderCalls : List Event → Nat
  | [] => 0
  | .decode _ _ :: rest => decoderCalls rest + 1
  | _ :: rest => decoderCalls rest

/-! ## `AddRecord`, `Stop`, `Initialize` (simple_dns_server.cpp 13-67, 197-212) -/

/-- Replace the value of the entry with key `key`, or add the entry when no key equals it. -/
def insertOrAssign : List (Str × Str) → Str → Str → List (Str × Str)
  | [], key, value => [(key, value)]
  | (k, v) :: rest, key, value =>
    if k = key then (k, value) :: rest else (k, v) :: insertOrAssign rest key value

/-- The call `m.insert_or_assign(key, value)`. The position of a new entry among the
others (the key order of a `std::map`) is not modelled: no lookup depends on it. -/
def StdMap.insert_or_assign (m : StdMap) (key value : Str) : StdMap :=
  ⟨insertOrAssign m.entries key value⟩

/-- `SimpleDnsServer::AddRecord` (simple_dns_server.cpp 209-212); the line it prints is
left out. -/
def AddRecord (self : SimpleDnsServer) (domain ip : Str) : SimpleDnsServer :=
  { self with dns_records_ := self.dns_records_.insert_or_assign domain ip }

/-- `SimpleDnsServer::Stop` (simple_dns_server.cpp 197-207, non-Windows branch): the state
afterwards and the handles passed to `closesocket`. -/
def Stop (self : SimpleDnsServer) : SimpleDnsServer × List Int :=
  if self.sockfd_ ≠ INVALID_SOCKET then
    ({ self with is_running_ := false, sockfd_ := INVALID_SOCKET }, [self.sockfd_])
  else ({ self with is_running_ := false }, [])

/-- A sequence of `n` calls of `Stop`: the final state and all handles closed, in order. -/
def StopTimes : Nat → SimpleDnsServer → SimpleDnsServer × List Int
  | 0, self => (self, [])
  | n + 1, self => ((StopTimes n (Stop self).1).1, (Stop self).2 ++ (StopTimes n (Stop self).1).2)

/-- The struct `ServerConfig` (config_loader.h 8-15), with the values its constructor sets. -/
structure ServerConfig where
  port : Int := 53
  default_ip : Str := str "127.0.0.1"
  log_queries : Bool := true
  deriving DecidableEq, Repr

/-- The data members of `ConfigLoader` (config_loader.h 40-41). -/
structure ConfigLoader where
  server_config_ : ServerConfig := {}
  dns_records_ : StdMap := ⟨[]⟩
  deriving DecidableEq, Repr

/-- The value of `SOCKET_ERROR` on the non-Windows branch of the header. -/
def SOCKET_ERROR : Int := -1

/-- `SimpleDnsServer::Initialize` (simple_dns_server.cpp 13-67, non-Windows branch), given
the return values of `socket` and `bind`: its result, the state afterwards and the handles
passed to `closesocket`. -/
def Initialize (self : SimpleDnsServer) (config_loader : ConfigLoader)
    (socketResult bindResult : Int) : Bool × SimpleDnsServer × List Int :=
  let loaded : SimpleDnsServer :=
    { self with default_ip_ := config_loader.server_config_.default_ip,
                log_queries_ := config_loader.server_config_.log_queries,
                dns_records_ := config_loader.dns_records_,
                sockfd_ := socketResult }
  if socketResult = INVALID_SOCKET then (false, loaded, [])
  else if bindResult = SOCKET_ERROR then
    (false, { loaded with sockfd_ := INVALID_SOCKET }, [socketResult])
  else (true, loaded, [])

/-! ## `ConfigLoader::ValidateConfig` (config_loader.cpp 79-105) -/

/-- The loop over the records of `ValidateConfig`: `false` at the first address that
`inet_pton` rejects. -/
def validateRecords : List (Str × Str) → Bool
  | [] => true
  | (_, ip) :: rest => if inet_pton ip = none then false else validateRecords rest

/-- `ConfigLoader::ValidateConfig`; the lines it prints are left out. -/
def ValidateConfig (self : ConfigLoader) : Bool :=
  if self.server_config_.port < 1 ∨ self.server_config_.port > 65535 then false
  else if inet_pton self.server_config_.default_ip = none then false
  else validateRecords self.dns_records_.entries

/-! ## The states a server passes through after `Initialize` -/

/-- A member function that changes the state of an initialised server. (`HandleDnsQuery`
leaves the state as it is; `Start` only sets the running flag around it.) -/
inductive ServerCall where
  | addRecord (domain ip : Str)
  | stop
  | start
  deriving DecidableEq, Repr

/-- The state after one such call; for `start`, the store of `is_running_` that opens
`Start` (simple_dns_server.cpp 188). -/
def ServerCall.run (call : ServerCall) (self : SimpleDnsServer) : SimpleDnsServer :=
  match call with
  | .addRecord domain ip => AddRecord self domain ip
  | .stop => (Stop self).1
  | .start => { self with is_running_ := true }

/-- How one evaluation of the loop condition and body ends: the loop is left with the
given name and position, or the next iteration starts from a new state. -/
inductive LoopStep where
  | exit (domain : Str) (position : Nat)
  | next (domain : Str) (position len : Nat)
  deriving DecidableEq, Repr

/-- The loop condition and one pass through the body (simple_dns_server.cpp 75-88). -/
def ExtractDomainName.body (buffer : List Byte) (domain : Str) (position len : Nat) :
    Except Fault LoopStep :=
  if len = 0 then .ok (.exit domain position)
  else if len &&& 0xC0 = 0xC0 then .ok (.exit domain (position + 2))
  else
    match subspan buffer (position + 1) len with
    | .error f => .error f
    | .ok label_view =>
      match index buffer (position + 1 + len) with
      | .error f => .error f
      | .ok b => .ok (.next (domain ++ label_view ++ [dot]) (position + 1 + len) b.val)

/-- The number of passes through the body that end with the next iteration starting. -/
def ExtractDomainName.iterations (buffer : List Byte) : Nat → Str → Nat → Nat → Nat
  | 0, _, _, _ => 0
  | fuel + 1, domain, position, len =>
    match ExtractDomainName.body buffer domain position len with
    | .ok (.next domain2 position2 len2) =>
      ExtractDomainName.iterations buffer fuel domain2 position2 len2 + 1
    | _ => 0

/-! ## Wire format of a question name (spec section 3) -/

/-- The wire encoding of a list of labels: for each label its length byte, then its bytes. -/
def encodeLabels : List (List Byte) → List Byte
  | [] => []
  | label :: rest => Fin.ofNat label.length :: (label ++ encodeLabels rest)

/-- The in-memory form of a name: the labels joined with `'.'`. -/
def dotJoin (labels : List (List Byte)) : Str := List.intercalate [dot] labels

/-- The raw `domain` the loop accumulates for a list of labels: every label followed by `'.'`. -/
def dotTerminated : List (List Byte) → Str
  | [] => []
  | label :: rest => label ++ [dot] ++ dotTerminated rest

/-- The labels a wire-format name may carry: 1 to 63 bytes each. -/
def WellFormedLabels (labels : List (List Byte)) : Prop :=
  ∀ label ∈ labels, 1 ≤ label.length ∧ label.length ≤ 63

instance instDecidableWellFormedLabels (labels : List (List Byte)) :
    Decidable (WellFormedLabels labels) := by
  unfold WellFormedLabels; infer_instance

/-- The three header patches of the builder, on a query long enough to hold them. -/
def patchHeader (query : List Byte) : List Byte :=
  ((query.set 2 0x81).set 3 0x80).set 7 0x01

/-- Two buffers carry the same bytes from offset `k` on, as far as the first one reaches. -/
def AgreeFrom (k : Nat) (b1 b2 : List Byte) : Prop :=
  b1.length ≤ b2.length ∧ ∀ i, k ≤ i → i < b1.length → b2[i]? = b1[i]?

/-! ## Sample data (spec section 8, end-to-end scenarios) -/

/-- A 12-byte header: identifier AB CD, flags 01 00, one question. -/
def sampleHeader : List Byte := [0xAB, 0xCD, 0x01, 0x00, 0x00, 0x01, 0, 0, 0, 0, 0, 0]

/-- A query for `example.com`, type A, class IN. -/
def exampleQuery : List Byte :=
  sampleHeader ++ encodeLabels [str "example", str "com"] ++ [0, 0, 1, 0, 1]

/-- A query for `unknown.org`, type A, class IN. -/
def unknownQuery : List Byte :=
  sampleHeader ++ encodeLabels [str "unknown", str "org"] ++ [0, 0, 1, 0, 1]

/-- A query for `a.com`, type A, class IN. -/
def aComQuery : List Byte :=
  sampleHeader ++ encodeLabels [str "a", str "com"] ++ [0, 0, 1, 0, 1]

/-- The server of scenarios A and B: one record, default address `127.0.0.1`. -/
def exampleServer : SimpleDnsServer :=
  { dns_records_ := ⟨[(str "example.com", str "10.0.0.5")]⟩ }

/-- The server of scenario D: a record whose address does not parse. -/
def scenarioDServer : SimpleDnsServer :=
  { dns_records_ := ⟨[(str "a.com", str "not-an-ip")]⟩ }

/-- Some earlier contents of the stack slot of `addr`. -/
def staleAddr : in_addr := ⟨0xDE, 0xAD, 0xBE, 0xEF⟩

/-- The receive array after a datagram arrived: the datagram, then stale bytes up to 512. -/
def receiveArray (datagram : List Byte) : List Byte :=
  datagram ++ List.replicate (512 - datagram.length) 0x5A

/-- A successful `recvfrom` of the given datagram from endpoint 7. -/
def received (datagram : List Byte) : Received :=
  ⟨datagram.length, receiveArray datagram, 7⟩

/-- A failed `recvfrom`: return value -1, the array untouched. -/
def failedReceive : Received := ⟨-1, List.replicate 512 0x5A, 0⟩

/-- A query whose question name is a compression pointer as the first label. -/
def pointerQuery : List Byte := sampleHeader ++ [0xC0, 0x0C, 0, 1, 0, 1]

/-- A 14-byte datagram whose only label announces 5 bytes where 1 remains. -/
def overlongLabelQuery : List Byte := sampleHeader ++ [5, 0x61]

/-- A query whose name is the labels `www`, `example` followed by the pointer `C0 0C`. -/
def truncatedQuery : List Byte :=
  sampleHeader ++ encodeLabels [str "www", str "example"] ++ [0xC0, 0x0C, 0, 1, 0, 1]

/-- A configuration with a valid port, default address and record. -/
def exampleConfig : ConfigLoader :=
  { server_config_ := { port := 5353 },
    dns_records_ := ⟨[(str "example.com", str "10.0.0.5")]⟩ }

/-! ## Lemmas on the decoder -/

theorem pointer_test_iff (b : Byte) : (b.val &&& 0xC0 = 0xC0) ↔ 192 ≤ b.val := by
  revert b; decide

theorem ofNat_val_of_lt (n : Nat) (h : n < 256) : (Fin.ofNat n : Byte).val = n := by
  simp [Fin.ofNat, Nat.mod_eq_of_lt h]

theorem subspan_append (pre label rest : List Byte) :
    subspan (pre ++ (label ++ rest)) pre.length label.length = .ok label := by
  simp [subspan]

theorem index_append (pre rest : List Byte) (b : Byte) :
    index (pre ++ b :: rest) pre.length = .ok b := by
  unfold index
  rw [List.getElem?_append_right (Nat.le_refl _)]
  simp

theorem length_le_encodeLabels (labels : List (List Byte)) :
    labels.length ≤ (encodeLabels labels).length := by
  induction labels with
  | nil => simp [encodeLabels]
  | cons l ls ih => simp [encodeLabels]; omega

theorem dotTerminated_eq (l : List Byte) (ls : List (List Byte)) :
    dotTerminated (l :: ls) = dotJoin (l :: ls) ++ [dot] := by
  induction ls generalizing l with
  | nil => simp [dotTerminated, dotJoin, List.intercalate, List.intersperse]
  | cons l2 ls ih =>
    have h := ih l2
    simp only [dotTerminated] at h ⊢
    rw [h]
    simp [dotJoin, List.intercalate, List.intersperse]

theorem popTrailingDot_dotTerminated (labels : List (List Byte)) :
    popTrailingDot (dotTerminated labels) = dotJoin labels := by
  cases labels with
  | nil => simp [popTrailingDot, dotTerminated, dotJoin, List.intercalate, List.intersperse]
  | cons l ls =>
    rw [dotTerminated_eq]
    simp [popTrailingDot, List.getLast?_concat, List.dropLast_concat]

/-- The byte the decoder reads first at a name: the first length byte, or the terminator. -/
theorem head_encodeLabels_zero (labels : List (List Byte)) (post : List Byte) :
    ∃ b rest, encodeLabels labels ++ 0 :: post = b :: rest := by
  cases labels with
  | nil => exact ⟨0, post, rfl⟩
  | cons l ls => exact ⟨Fin.ofNat l.length, _, rfl⟩

/-- The loop over a well-formed, zero-terminated name consumes exactly its labels. -/
theorem loop_encodeLabels (labels : List (List Byte)) :
    ∀ (pre post : List Byte) (domain : Str) (fuel : Nat) (b : Byte) (rest : List Byte),
      WellFormedLabels labels → labels.length < fuel →
      encodeLabels labels ++ 0 :: post = b :: rest →
      ExtractDomainName.loop (pre ++ (encodeLabels labels ++ 0 :: post)) fuel domain
          pre.length b.val
        = .ok (domain ++ dotTerminated labels, pre.length + (encodeLabels labels).length) := by
  induction labels with
  | nil =>
    intro pre post domain fuel b rest _ hf hb
    obtain ⟨fuel, rfl⟩ : ∃ k, fuel = k + 1 := ⟨fuel - 1, by simp at hf; omega⟩
    simp only [encodeLabels, List.nil_append, List.cons.injEq] at hb
    obtain ⟨rfl, _⟩ := hb
    simp [ExtractDomainName.loop, dotTerminated, encodeLabels]
  | cons l ls ih =>
    intro pre post domain fuel b rest hwf hf hb
    obtain ⟨fuel, rfl⟩ : ∃ k, fuel = k + 1 := ⟨fuel - 1, by simp at hf; omega⟩
    have hl := hwf l (List.mem_cons_self _ _)
    have hwf2 : WellFormedLabels ls := fun x hx => hwf x (List.mem_cons_of_mem _ hx)
    simp only [encodeLabels, List.cons_append, List.cons.injEq] at hb
    obtain ⟨rfl, _⟩ := hb
    have hv : (Fin.ofNat l.length : Byte).val = l.length := ofNat_val_of_lt _ (by omega)
    obtain ⟨b2, rest2, hb2⟩ := head_encodeLabels_zero ls post
    have hbuf : pre ++ (encodeLabels (l :: ls) ++ 0 :: post)
        = (pre ++ [Fin.ofNat l.length]) ++ (l ++ (encodeLabels ls ++ 0 :: post)) := by
      simp [encodeLabels]
    have hbuf2 : pre ++ (encodeLabels (l :: ls) ++ 0 :: post)
        = (pre ++ [Fin.ofNat l.length] ++ l) ++ (encodeLabels ls ++ 0 :: post) := by
      simp [encodeLabels]
    have hsub : subspan (pre ++ (encodeLabels (l :: ls) ++ 0 :: post)) (pre.length + 1) l.length
        = .ok l := by
      rw [hbuf]
      have := subspan_append (pre ++ [Fin.ofNat l.length]) l (encodeLabels ls ++ 0 :: post)
      simpa using this
    have hlen : (pre ++ [Fin.ofNat l.length] ++ l).length = pre.length + 1 + l.length := by
      simp only [List.length_append, List.length_cons, List.length_nil]
    have hidx : index (pre ++ (encodeLabels (l :: ls) ++ 0 :: post)) (pre.length + 1 + l.length)
        = .ok b2 := by
      rw [hbuf2, hb2, ← hlen]
      exact index_append (pre ++ [Fin.ofNat l.length] ++ l) rest2 b2
    have hnz : ¬ (l.length = 0) := by omega
    have hnp : ¬ (l.length &&& 0xC0 = 0xC0) := by
      have h := pointer_test_iff (Fin.ofNat l.length)
      rw [hv] at h
      intro hc
      have := h.mp hc
      omega
    rw [ExtractDomainName.loop, hv]
    simp only [hnz, hnp, if_false, hsub, hidx]
    have hrec := ih (pre ++ [Fin.ofNat l.length] ++ l) post (domain ++ l ++ [dot]) fuel b2 rest2
      hwf2 (by simp at hf; omega) hb2
    rw [hbuf2]
    rw [hlen] at hrec
    rw [hrec]
    simp [dotTerminated, encodeLabels]
    omega

/-- Claim C1. For every list of labels of 1 to 63 bytes each (the empty list included)
and every buffer that holds, from offset `p`, the wire encoding of the labels followed
by a zero byte at offset `z`, `ExtractDomainName(buffer, p)` returns the labels joined
with `'.'` and leaves `position` at `z + 1`. -/
theorem ExtractDomainName_uncompressed (labels : List (List Byte)) (pre post buffer : List Byte)
    (p z : Nat) (hwf : WellFormedLabels labels)
    (hbuf : buffer = pre ++ encodeLabels labels ++ 0 :: post)
    (hp : p = pre.length) (hz : z = p + (encodeLabels labels).length) :
    buffer[z]? = some 0 ∧ ExtractDomainName buffer p = .ok (dotJoin labels, z + 1) := by
  subst hp hz
  have hbuf2 : buffer = pre ++ (encodeLabels labels ++ 0 :: post) := by rw [hbuf]; simp
  obtain ⟨b, rest, hb⟩ := head_encodeLabels_zero labels post
  constructor
  · rw [hbuf]
    have : (pre ++ encodeLabels labels).length = pre.length + (encodeLabels labels).length := by
      simp
    rw [← this, List.getElem?_append_right (Nat.le_refl _)]
    simp
  · have hidx : index buffer pre.length = .ok b := by
      rw [hbuf2, hb]; exact index_append pre rest b
    have hfuel : labels.length < buffer.length + 1 := by
      have := length_le_encodeLabels labels
      rw [hbuf2]; simp; omega
    have hloop := loop_encodeLabels labels pre post [] (buffer.length + 1) b rest hwf hfuel hb
    rw [← hbuf2] at hloop
    simp only [ExtractDomainName, hidx, hloop, List.nil_append, popTrailingDot_dotTerminated]

/-- Witness for C1: the name `www.ab` encoded at offset 12 of a 22-byte query. -/
theorem ExtractDomainName_uncompressed_witness :
    ([0, 0, 0, 0, 0, 0, 0, 0, 0, 0, 0, 0, 3, 119, 119, 119, 2, 97, 98, 0, 0, 1] : List Byte)[19]?
        = some 0
      ∧ ExtractDomainName [0, 0, 0, 0, 0, 0, 0, 0, 0, 0, 0, 0, 3, 119, 119, 119, 2, 97, 98, 0, 0, 1]
          12 = .ok (dotJoin [str "www", str "ab"], 19 + 1) :=
  ExtractDomainName_uncompressed [str "www", str "ab"] [0, 0, 0, 0, 0, 0, 0, 0, 0, 0, 0, 0]
    [0, 1] _ 12 19 (by decide) (by decide) (by decide) (by decide)

/-! ## Lemmas on the response builder -/

theorem ofNat_val (n : Nat) : (Fin.ofNat n : Byte).val = n % 256 := rfl

/-- The four base-256 digits of a 32-bit value assembled from four bytes. -/
theorem digits_u32 (a b c d : Nat) (ha : a < 256) (hb : b < 256) (hc : c < 256) (hd : d < 256) :
    (a + b * 256 + c * 65536 + d * 16777216) % 256 = a
      ∧ (a + b * 256 + c * 65536 + d * 16777216) / 256 % 256 = b
      ∧ (a + b * 256 + c * 65536 + d * 16777216) / 65536 % 256 = c
      ∧ (a + b * 256 + c * 65536 + d * 16777216) / 16777216 % 256 = d
      ∧ (a + b * 256 + c * 65536 + d * 16777216) % 4294967296
          = a + b * 256 + c * 65536 + d * 16777216 := by
  refine ⟨?_, ?_, ?_, ?_, ?_⟩ <;> omega

/-- What `ntohl` followed by `std::bit_cast` does to the four bytes `inet_pton` stored:
nothing on a big-endian host, a reversal on a little-endian host. -/
theorem bit_cast_ntohl (host : ByteOrder) (addr : in_addr) :
    bit_cast host (ntohl host (s_addr host addr))
      = match host with
        | .bigEndian => [addr.m0, addr.m1, addr.m2, addr.m3]
        | .littleEndian => [addr.m3, addr.m2, addr.m1, addr.m0] := by
  obtain ⟨⟨a, ha⟩, ⟨b, hb⟩, ⟨c, hc⟩, ⟨d, hd⟩⟩ := addr
  cases host
  · obtain ⟨h0, h1, h2, h3, _⟩ := digits_u32 a b c d ha hb hc hd
    have hsw : ntohl .littleEndian (s_addr .littleEndian ⟨⟨a, ha⟩, ⟨b, hb⟩, ⟨c, hc⟩, ⟨d, hd⟩⟩)
        = d + c * 256 + b * 65536 + a * 16777216 := by
      simp only [ntohl, s_addr, h0, h1, h2, h3]; omega
    obtain ⟨k0, k1, k2, k3, _⟩ := digits_u32 d c b a hd hc hb ha
    rw [hsw]
    simp only [bit_cast, List.cons.injEq, and_true, Fin.ext_iff, ofNat_val, k0, k1, k2, k3]
  · obtain ⟨k0, k1, k2, k3, k4⟩ := digits_u32 d c b a hd hc hb ha
    have hid : ntohl .bigEndian (s_addr .bigEndian ⟨⟨a, ha⟩, ⟨b, hb⟩, ⟨c, hc⟩, ⟨d, hd⟩⟩)
        = d + c * 256 + b * 65536 + a * 16777216 := by
      simp only [ntohl, s_addr, k4]
    rw [hid]
    simp only [bit_cast, List.cons.injEq, and_true, Fin.ext_iff, ofNat_val, k0, k1, k2, k3]

theorem length_bit_cast (host : ByteOrder) (v : Nat) : (bit_cast host v).length = 4 := by
  cases host <;> rfl

theorem length_patchHeader (query : List Byte) : (patchHeader query).length = query.length := by
  simp [patchHeader]

theorem CreateDnsResponse_eq (host : ByteOrder) (uninit : in_addr) (self : SimpleDnsServer)
    (query : List Byte) (ip : Str) (h : 8 ≤ query.length) :
    CreateDnsResponse host uninit self query ip
      = .ok (patchHeader query ++ answer
          ++ bit_cast host (ntohl host (s_addr host (resolveAddr uninit self.default_ip_ ip)))) := by
  have h2 : 2 < query.length := by omega
  have h3 : 3 < query.length := by omega
  have h7 : 7 < query.length := by omega
  simp [CreateDnsResponse, assign, patchHeader, h2, h3, h7]

theorem getElem?_patchHeader (query : List Byte) (i : Nat) (h2 : i ≠ 2) (h3 : i ≠ 3)
    (h7 : i ≠ 7) : (patchHeader query)[i]? = query[i]? := by
  simp [patchHeader, List.getElem?_set, Ne.symm h2, Ne.symm h3, Ne.symm h7]

theorem take_response (query tail : List Byte) :
    (patchHeader query ++ tail).take query.length = patchHeader query := by
  rw [← length_patchHeader query, List.take_left]

theorem drop_response (query tail : List Byte) :
    (patchHeader query ++ tail).drop query.length = tail := by
  rw [← length_patchHeader query, List.drop_left]

/-- Claim C2. For every query of at least 12 bytes and every address string, the first
`len(query)` bytes of `CreateDnsResponse(query, ip)` are the query with byte 2 replaced
by 0x81, byte 3 by 0x80 and byte 7 by 0x01; every other byte of that part equals the
query byte at the same offset. -/
theorem CreateDnsResponse_preserves_query (host : ByteOrder) (uninit : in_addr)
    (self : SimpleDnsServer) (query : List Byte) (ip : Str) (h : 12 ≤ query.length) :
    ∃ response, CreateDnsResponse host uninit self query ip = .ok response
      ∧ response.take query.length = ((query.set 2 0x81).set 3 0x80).set 7 0x01
      ∧ response[2]? = some 0x81 ∧ response[3]? = some 0x80 ∧ response[7]? = some 0x01
      ∧ ∀ i, i < query.length → i ≠ 2 → i ≠ 3 → i ≠ 7 → response[i]? = query[i]? := by
  refine ⟨_, CreateDnsResponse_eq host uninit self query ip (by omega), ?_, ?_, ?_, ?_, ?_⟩
  · rw [List.append_assoc, take_response]; rfl
  · rw [List.append_assoc, List.getElem?_append_left (by rw [length_patchHeader]; omega)]
    simp [patchHeader, List.getElem?_set]; omega
  · rw [List.append_assoc, List.getElem?_append_left (by rw [length_patchHeader]; omega)]
    simp [patchHeader, List.getElem?_set]; omega
  · rw [List.append_assoc, List.getElem?_append_left (by rw [length_patchHeader]; omega)]
    simp [patchHeader, List.getElem?_set]; omega
  · intro i hi h2 h3 h7
    rw [List.append_assoc, List.getElem?_append_left (by rw [length_patchHeader]; omega)]
    exact getElem?_patchHeader query i h2 h3 h7

/-- Witness for C2: the sample query for `example.com`. -/
theorem CreateDnsResponse_preserves_query_witness :
    12 ≤ exampleQuery.length
      ∧ ∃ response,
        CreateDnsResponse .littleEndian staleAddr exampleServer exampleQuery (str "10.0.0.5")
          = .ok response
        ∧ response.take exampleQuery.length = ((exampleQuery.set 2 0x81).set 3 0x80).set 7 0x01
        ∧ response[2]? = some 0x81 ∧ response[3]? = some 0x80 ∧ response[7]? = some 0x01
        ∧ ∀ i, i < exampleQuery.length → i ≠ 2 → i ≠ 3 → i ≠ 7 →
            response[i]? = exampleQuery[i]? :=
  ⟨by decide,
   CreateDnsResponse_preserves_query .littleEndian staleAddr exampleServer exampleQuery
     (str "10.0.0.5") (by decide)⟩

/-- Claim C3 as stated fails: the response to the 29-byte sample query with the
parseable address `10.0.0.5` has 45 bytes, not 29 + 12 = 41. -/
theorem CreateDnsResponse_length_counterexample :
    12 ≤ exampleQuery.length ∧ (inet_pton (str "10.0.0.5")).isSome = true
      ∧ ∃ response,
        CreateDnsResponse .bigEndian staleAddr exampleServer exampleQuery (str "10.0.0.5")
          = .ok response
        ∧ response.length = 45 ∧ response.length ≠ exampleQuery.length + 12 := by
  refine ⟨by decide, by decide, _, rfl, by decide, by decide⟩

/-- Claim C3, amended. For every query of at least 12 bytes and every address string
that parses as dotted-decimal IPv4 (or whose fallback default address parses), the length
of `CreateDnsResponse(query, ip)` is exactly `len(query) + 16`: the 12 bytes of `answer`
and the 4 address bytes. -/
theorem CreateDnsResponse_length (host : ByteOrder) (uninit : in_addr) (self : SimpleDnsServer)
    (query : List Byte) (ip : Str) (h : 12 ≤ query.length)
    (_hparse : (inet_pton ip).isSome = true ∨ (inet_pton self.default_ip_).isSome = true) :
    ∃ response, CreateDnsResponse host uninit self query ip = .ok response
      ∧ response.length = query.length + 16 := by
  refine ⟨_, CreateDnsResponse_eq host uninit self query ip (by omega), ?_⟩
  simp only [List.length_append, length_patchHeader, length_bit_cast]
  rfl

/-- Witness for C3 (amended): the sample query and the address `10.0.0.5`. -/
theorem CreateDnsResponse_length_witness :
    12 ≤ exampleQuery.length
      ∧ ((inet_pton (str "10.0.0.5")).isSome = true
          ∨ (inet_pton exampleServer.default_ip_).isSome = true)
      ∧ ∃ response,
        CreateDnsResponse .littleEndian staleAddr exampleServer exampleQuery (str "10.0.0.5")
          = .ok response
        ∧ response.length = exampleQuery.length + 16 :=
  ⟨by decide, Or.inl (by decide),
   CreateDnsResponse_length .littleEndian staleAddr exampleServer exampleQuery
     (str "10.0.0.5") (by decide) (Or.inl (by decide))⟩

/-- Claim C4, on the code. For every query of at least 12 bytes and every address string
that `inet_pton` accepts as the bytes `a b c d`, the bytes of `CreateDnsResponse(query, ip)`
after the copied query are `C0 0C 00 01 00 01 00 00 01 2C 00 04` followed by four address
bytes, which are `a b c d` on a big-endian host and `d c b a` on a little-endian host. -/
theorem CreateDnsResponse_answer_record (host : ByteOrder) (uninit : in_addr)
    (self : SimpleDnsServer) (query : List Byte) (ip : Str) (addr : in_addr)
    (h : 12 ≤ query.length) (hparse : inet_pton ip = some addr) :
    ∃ response, CreateDnsResponse host uninit self query ip = .ok response
      ∧ response.drop query.length
          = [0xC0, 0x0C, 0x00, 0x01, 0x00, 0x01, 0x00, 0x00, 0x01, 0x2C, 0x00, 0x04]
            ++ (match host with
                | .bigEndian => [addr.m0, addr.m1, addr.m2, addr.m3]
                | .littleEndian => [addr.m3, addr.m2, addr.m1, addr.m0]) := by
  refine ⟨_, CreateDnsResponse_eq host uninit self query ip (by omega), ?_⟩
  rw [List.append_assoc, drop_response, bit_cast_ntohl]
  simp only [resolveAddr, hparse]
  rfl

/-- Failing input for C4: on a little-endian host the address `10.0.0.5` is appended as
`05 00 00 0A`, not as `0A 00 00 05`. -/
theorem CreateDnsResponse_answer_record_witness :
    12 ≤ exampleQuery.length ∧ inet_pton (str "10.0.0.5") = some ⟨0x0A, 0x00, 0x00, 0x05⟩
      ∧ ∃ response,
        CreateDnsResponse .littleEndian staleAddr exampleServer exampleQuery (str "10.0.0.5")
          = .ok response
        ∧ response.drop exampleQuery.length
            = [0xC0, 0x0C, 0x00, 0x01, 0x00, 0x01, 0x00, 0x00, 0x01, 0x2C, 0x00, 0x04]
              ++ [0x05, 0x00, 0x00, 0x0A] :=
  ⟨by decide, by decide,
   CreateDnsResponse_answer_record .littleEndian staleAddr exampleServer exampleQuery
     (str "10.0.0.5") ⟨0x0A, 0x00, 0x00, 0x05⟩ (by decide) (by decide)⟩

/-- Claim C8. For every query of at least 12 bytes, every address string that does not
parse and every default address that does, `CreateDnsResponse(query, ip)` is defined and
equals `CreateDnsResponse(query, default_ip_)`. -/
theorem CreateDnsResponse_unparseable_ip (host : ByteOrder) (uninit : in_addr)
    (self : SimpleDnsServer) (query : List Byte) (ip : Str) (h : 12 ≤ query.length)
    (hbad : inet_pton ip = none) (hdefault : (inet_pton self.default_ip_).isSome = true) :
    (∃ response, CreateDnsResponse host uninit self query ip = .ok response)
      ∧ CreateDnsResponse host uninit self query ip
          = CreateDnsResponse host uninit self query self.default_ip_ := by
  obtain ⟨addr, haddr⟩ := Option.isSome_iff_exists.mp hdefault
  have h1 := CreateDnsResponse_eq host uninit self query ip (by omega)
  have h2 := CreateDnsResponse_eq host uninit self query self.default_ip_ (by omega)
  refine ⟨⟨_, h1⟩, ?_⟩
  rw [h1, h2]
  simp only [resolveAddr, hbad, haddr]

/-- Witness for C8 (scenario D): the stored address `not-an-ip` with default `127.0.0.1`. -/
theorem CreateDnsResponse_unparseable_ip_witness :
    12 ≤ aComQuery.length ∧ inet_pton (str "not-an-ip") = none
      ∧ (inet_pton scenarioDServer.default_ip_).isSome = true
      ∧ (∃ response,
          CreateDnsResponse .littleEndian staleAddr scenarioDServer aComQuery (str "not-an-ip")
            = .ok response)
      ∧ CreateDnsResponse .littleEndian staleAddr scenarioDServer aComQuery (str "not-an-ip")
          = CreateDnsResponse .littleEndian staleAddr scenarioDServer aComQuery
              scenarioDServer.default_ip_ :=
  ⟨by decide, by decide, by decide,
   CreateDnsResponse_unparseable_ip .littleEndian staleAddr scenarioDServer aComQuery
     (str "not-an-ip") (by decide) (by decide) (by decide)⟩

/-! ## Lemmas on the record store -/

theorem findEntry_eq_none_iff (entries : List (Str × Str)) (key : Str) :
    findEntry entries key = none ↔ ∀ v, (key, v) ∉ entries := by
  induction entries with
  | nil => simp [findEntry]
  | cons e rest ih =>
    obtain ⟨k, v0⟩ := e
    by_cases hk : k = key
    · subst hk
      simp only [findEntry, if_true, List.mem_cons, not_or]
      constructor
      · intro h; cases h
      · intro h; exact absurd rfl (h v0).1
    · simp only [findEntry, hk, if_false, ih, List.mem_cons, not_or, Prod.mk.injEq]
      constructor
      · intro h v; exact ⟨fun hc => hk hc.1.symm, h v⟩
      · intro h v; exact (h v).2

theorem findEntry_eq_some_iff (entries : List (Str × Str))
    (hu : (entries.map Prod.fst).Nodup) (key v : Str) :
    findEntry entries key = some v ↔ (key, v) ∈ entries := by
  induction entries with
  | nil => simp [findEntry]
  | cons e rest ih =>
    obtain ⟨k, v0⟩ := e
    simp only [List.map_cons, List.nodup_cons] at hu
    obtain ⟨hnot, hrest⟩ := hu
    by_cases hk : k = key
    · subst hk
      simp only [findEntry, if_true, List.mem_cons, Prod.mk.injEq, true_and, Option.some.injEq]
      constructor
      · intro h; exact Or.inl h.symm
      · rintro (h | h)
        · exact h.symm
        · exact absurd (List.mem_map_of_mem Prod.fst h) hnot
    · simp only [findEntry, hk, if_false, ih hrest, List.mem_cons, Prod.mk.injEq]
      constructor
      · intro h; exact Or.inr h
      · rintro (h | h)
        · exact absurd h.1.symm hk
        · exact h

theorem FindIpForDomain_eq (self : SimpleDnsServer) (domain : Str) :
    FindIpForDomain self domain = findEntry self.dns_records_.entries domain := by
  unfold FindIpForDomain StdMap.find
  cases findEntry self.dns_records_.entries domain <;> rfl

/-- Claim C7. For every record store and every name, `FindIpForDomain(name)` returns `v`
exactly when the store holds the entry `name ↦ v` (key equal to `name` byte for byte), and
returns not-found exactly when no key of the store equals `name`. -/
theorem FindIpForDomain_exact (self : SimpleDnsServer) (name v : Str)
    (hu : self.dns_records_.UniqueKeys) :
    (FindIpForDomain self name = some v ↔ (name, v) ∈ self.dns_records_.entries)
      ∧ (FindIpForDomain self name = none ↔ ∀ key ∈ self.dns_records_.entries.map Prod.fst,
          key ≠ name) := by
  rw [FindIpForDomain_eq]
  refine ⟨findEntry_eq_some_iff _ hu name v, ?_⟩
  rw [findEntry_eq_none_iff]
  constructor
  · intro h key hkey hc
    obtain ⟨⟨k, v2⟩, hmem, rfl⟩ := List.mem_map.mp hkey
    subst hc
    exact h v2 hmem
  · intro h v2 hmem
    exact h name (List.mem_map_of_mem Prod.fst hmem) rfl

/-- Witness for C7: the store with the single key `example.com`; a name differing in
letter case, a suffix, a leading part and a subdomain of the key are all not found. -/
theorem FindIpForDomain_exact_witness :
    exampleServer.dns_records_.UniqueKeys
      ∧ ((FindIpForDomain exampleServer (str "example.com") = some (str "10.0.0.5")
            ↔ (str "example.com", str "10.0.0.5") ∈ exampleServer.dns_records_.entries)
          ∧ (FindIpForDomain exampleServer (str "example.com") = none
            ↔ ∀ key ∈ exampleServer.dns_records_.entries.map Prod.fst,
                key ≠ str "example.com"))
      ∧ FindIpForDomain exampleServer (str "example.com") = some (str "10.0.0.5")
      ∧ FindIpForDomain exampleServer (str "Example.com") = none
      ∧ FindIpForDomain exampleServer (str "com") = none
      ∧ FindIpForDomain exampleServer (str "example") = none
      ∧ FindIpForDomain exampleServer (str "www.example.com") = none :=
  ⟨by decide,
   FindIpForDomain_exact exampleServer (str "example.com") (str "10.0.0.5") (by decide),
   by decide, by decide, by decide, by decide, by decide⟩

/-! ## The query/response cycle -/

/-- Claim C9. For every receive result of fewer than 12 bytes (a negative return value
included), one cycle sends nothing, does not enter the name decoder and returns the
server state it started from. -/
theorem HandleDnsQuery_short_datagram (host : ByteOrder) (uninit : in_addr)
    (self : SimpleDnsServer) (rx : Received) (h : rx.bytes_received < 12) :
    ∃ after trace, HandleDnsQuery host uninit self rx = .ok (after, trace)
      ∧ after = self ∧ sentResponses trace = [] ∧ decoderCalls trace = 0 := by
  refine ⟨self, [], ?_, rfl, rfl, rfl⟩
  simp [HandleDnsQuery, h]

/-- Witness for C9 (scenario C): a 5-byte datagram, and a failed receive returning -1. -/
theorem HandleDnsQuery_short_datagram_witness :
    ((received [0xAB, 0xCD, 1, 0, 0]).bytes_received < 12
      ∧ ∃ after trace,
        HandleDnsQuery .littleEndian staleAddr exampleServer (received [0xAB, 0xCD, 1, 0, 0])
          = .ok (after, trace)
        ∧ after = exampleServer ∧ sentResponses trace = [] ∧ decoderCalls trace = 0)
      ∧ (failedReceive.bytes_received < 12
        ∧ ∃ after trace,
          HandleDnsQuery .littleEndian staleAddr exampleServer failedReceive = .ok (after, trace)
          ∧ after = exampleServer ∧ sentResponses trace = [] ∧ decoderCalls trace = 0) :=
  ⟨⟨by decide,
    HandleDnsQuery_short_datagram .littleEndian staleAddr exampleServer
      (received [0xAB, 0xCD, 1, 0, 0]) (by decide)⟩,
   ⟨by decide,
    HandleDnsQuery_short_datagram .littleEndian staleAddr exampleServer failedReceive
      (by decide)⟩⟩

/-- Claim C10, on the code. For every buffer and offset `p` at which the first length
byte has both top bits set, `ExtractDomainName(buffer, p)` returns the empty name and
leaves `position` at `p + 3`: two for the pointer, one more from the `++position` that
follows the loop. -/
theorem ExtractDomainName_pointer_first (buffer : List Byte) (p : Nat) (b : Byte)
    (hb : buffer[p]? = some b) (hptr : 0xC0 ≤ b.val) :
    ExtractDomainName buffer p = .ok ([], p + 3) := by
  have hidx : index buffer p = .ok b := by simp [index, hb]
  have hand : b.val &&& 0xC0 = 0xC0 := (pointer_test_iff b).mpr hptr
  have hnz : ¬ (b.val = 0) := by omega
  simp [ExtractDomainName, hidx, ExtractDomainName.loop, hand, hnz, popTrailingDot]

/-- Failing input for C10: the pointer `C0 0C` at offset 12 leaves `position` at 15,
not at 14. -/
theorem ExtractDomainName_pointer_first_witness :
    pointerQuery[12]? = some 0xC0 ∧ 0xC0 ≤ (0xC0 : Byte).val
      ∧ ExtractDomainName pointerQuery 12 = .ok ([], 12 + 3) :=
  ⟨by decide, by decide, ExtractDomainName_pointer_first pointerQuery 12 0xC0 (by decide)
    (by decide)⟩

/-! ## The decoder on a buffer and on an extension of it -/

theorem index_eq_ok_iff (buffer : List Byte) (i : Nat) (b : Byte) :
    index buffer i = .ok b ↔ buffer[i]? = some b := by
  unfold index
  cases h : buffer[i]? <;> simp

theorem subspan_eq_ok_iff (buffer : List Byte) (offset count : Nat) (view : List Byte) :
    subspan buffer offset count = .ok view
      ↔ offset + count ≤ buffer.length ∧ view = (buffer.drop offset).take count := by
  unfold subspan
  by_cases h : offset + count ≤ buffer.length
  · simp only [h, if_true, Except.ok.injEq, true_and]
    exact eq_comm
  · simp [h]

theorem index_agree (k : Nat) (b1 b2 : List Byte) (hag : AgreeFrom k b1 b2) (i : Nat)
    (hi : k ≤ i) (b : Byte) (h : index b1 i = .ok b) : index b2 i = .ok b := by
  rw [index_eq_ok_iff] at h ⊢
  have hlt : i < b1.length := (List.getElem?_eq_some.mp h).1
  rw [hag.2 i hi hlt, h]

theorem subspan_agree (k : Nat) (b1 b2 : List Byte) (hag : AgreeFrom k b1 b2)
    (offset count : Nat) (ho : k ≤ offset) (view : List Byte)
    (h : subspan b1 offset count = .ok view) : subspan b2 offset count = .ok view := by
  rw [subspan_eq_ok_iff] at h ⊢
  obtain ⟨hle, rfl⟩ := h
  refine ⟨by have := hag.1; omega, ?_⟩
  apply List.ext_getElem?
  intro i
  rw [List.getElem?_take, List.getElem?_take, List.getElem?_drop, List.getElem?_drop]
  by_cases hi : i < count
  · simp only [hi, if_true]
    exact (hag.2 (offset + i) (by omega) (by omega)).symm
  · simp only [hi, if_false]

theorem loop_agree (k : Nat) (b1 b2 : List Byte) (hag : AgreeFrom k b1 b2) :
    ∀ (fuel : Nat) (domain : Str) (position len : Nat) (r : Str × Nat), k ≤ position →
      ExtractDomainName.loop b1 fuel domain position len = .ok r →
      ExtractDomainName.loop b2 fuel domain position len = .ok r := by
  intro fuel
  induction fuel with
  | zero => intro domain position len r _ h; simp [ExtractDomainName.loop] at h
  | succ n ih =>
    intro domain position len r hp h
    rw [ExtractDomainName.loop] at h ⊢
    by_cases hz : len = 0
    · simpa [hz] using h
    · by_cases hptr : len &&& 0xC0 = 0xC0
      · simpa [hz, hptr] using h
      · simp only [hz, hptr, if_false] at h ⊢
        cases hsub : subspan b1 (position + 1) len with
        | error f => simp [hsub] at h
        | ok view =>
          cases hidx : index b1 (position + 1 + len) with
          | error f => simp [hsub, hidx] at h
          | ok b =>
            simp only [hsub, hidx] at h
            rw [subspan_agree k b1 b2 hag _ _ (by omega) view hsub,
              index_agree k b1 b2 hag _ (by omega) b hidx]
            exact ih _ _ _ r (by omega) h

theorem loop_more_fuel (buffer : List Byte) (extra : Nat) :
    ∀ (fuel : Nat) (domain : Str) (position len : Nat) (r : Str × Nat),
      ExtractDomainName.loop buffer fuel domain position len = .ok r →
      ExtractDomainName.loop buffer (fuel + extra) domain position len = .ok r := by
  intro fuel
  induction fuel with
  | zero => intro domain position len r h; simp [ExtractDomainName.loop] at h
  | succ n ih =>
    intro domain position len r h
    have hsucc : n + 1 + extra = (n + extra) + 1 := by omega
    rw [hsucc]
    rw [ExtractDomainName.loop] at h ⊢
    by_cases hz : len = 0
    · simpa [hz] using h
    · by_cases hptr : len &&& 0xC0 = 0xC0
      · simpa [hz, hptr] using h
      · simp only [hz, hptr, if_false] at h ⊢
        cases hsub : subspan buffer (position + 1) len with
        | error f => simp [hsub] at h
        | ok view =>
          cases hidx : index buffer (position + 1 + len) with
          | error f => simp [hsub, hidx] at h
          | ok b =>
            simp only [hsub, hidx] at h ⊢
            exact ih _ _ _ r h

/-- A decoder run that stays inside `b1` gives the same result on every buffer that
agrees with `b1` from the start offset on. -/
theorem ExtractDomainName_agree (k : Nat) (b1 b2 : List Byte) (hag : AgreeFrom k b1 b2)
    (position : Nat) (hp : k ≤ position) (r : Str × Nat)
    (h : ExtractDomainName b1 position = .ok r) : ExtractDomainName b2 position = .ok r := by
  unfold ExtractDomainName at h ⊢
  cases hidx : index b1 position with
  | error f => simp [hidx] at h
  | ok b =>
    simp only [hidx] at h
    rw [index_agree k b1 b2 hag position hp b hidx]
    cases hloop : ExtractDomainName.loop b1 (b1.length + 1) [] position b.val with
    | error f => simp [hloop] at h
    | ok st =>
      simp only [hloop] at h
      have h2 := loop_agree k b1 b2 hag _ _ _ _ st hp hloop
      have h3 := loop_more_fuel b2 (b2.length - b1.length) _ _ _ _ st h2
      have hfuel : b1.length + 1 + (b2.length - b1.length) = b2.length + 1 := by
        have := hag.1; omega
      rw [hfuel] at h3
      simp only [h3]
      exact h

theorem agreeFrom_response (query tail : List Byte) :
    AgreeFrom 12 query (patchHeader query ++ tail) := by
  refine ⟨by simp [length_patchHeader], ?_⟩
  intro i hi hlt
  rw [List.getElem?_append_left (by rw [length_patchHeader]; exact hlt)]
  exact getElem?_patchHeader query i (by omega) (by omega) (by omega)

/-- Claim C6. For every query of at least 12 bytes whose question name the decoder reads
without leaving the query, and every address string, decoding at offset 12 of
`CreateDnsResponse(query, ip)` gives the same name and the same end position as decoding
at offset 12 of the query. -/
theorem ExtractDomainName_CreateDnsResponse (host : ByteOrder) (uninit : in_addr)
    (self : SimpleDnsServer) (query : List Byte) (ip : Str) (name : Str) (position : Nat)
    (h : 12 ≤ query.length) (hname : ExtractDomainName query 12 = .ok (name, position)) :
    ∃ response, CreateDnsResponse host uninit self query ip = .ok response
      ∧ ExtractDomainName response 12 = .ok (name, position)
      ∧ ExtractDomainName response 12 = ExtractDomainName query 12 := by
  refine ⟨_, CreateDnsResponse_eq host uninit self query ip (by omega), ?_⟩
  have hres : ExtractDomainName
      (patchHeader query ++ answer
        ++ bit_cast host (ntohl host (s_addr host (resolveAddr uninit self.default_ip_ ip)))) 12
      = .ok (name, position) := by
    rw [List.append_assoc]
    exact ExtractDomainName_agree 12 query _ (agreeFrom_response query _) 12 (Nat.le_refl _) _
      hname
  exact ⟨hres, by rw [hres, hname]⟩

/-- Witness for C6: the sample query for `example.com`, whose name ends at offset 24. -/
theorem ExtractDomainName_CreateDnsResponse_witness :
    12 ≤ exampleQuery.length
      ∧ ExtractDomainName exampleQuery 12 = .ok (str "example.com", 25)
      ∧ ∃ response,
        CreateDnsResponse .littleEndian staleAddr exampleServer exampleQuery (str "10.0.0.5")
          = .ok response
        ∧ ExtractDomainName response 12 = .ok (str "example.com", 25)
        ∧ ExtractDomainName response 12 = ExtractDomainName exampleQuery 12 :=
  ⟨by decide, by decide,
   ExtractDomainName_CreateDnsResponse .littleEndian staleAddr exampleServer exampleQuery
     (str "10.0.0.5") (str "example.com") 25 (by decide) (by decide)⟩

/-! ## Dispatch of one cycle -/

theorem sentResponses_append (xs ys : List Event) :
    sentResponses (xs ++ ys) = sentResponses xs ++ sentResponses ys := by
  induction xs with
  | nil => rfl
  | cons e rest ih => cases e <;> simp [sentResponses, ih]

theorem decoderCalls_append (xs ys : List Event) :
    decoderCalls (xs ++ ys) = decoderCalls xs + decoderCalls ys := by
  induction xs with
  | nil => simp [decoderCalls]
  | cons e rest ih =>
    cases e <;> simp [decoderCalls, ih]
    omega

theorem resolveIp_hit (self : SimpleDnsServer) (domain v : Str)
    (h : FindIpForDomain self domain = some v) : resolveIp self domain = v := by
  simp [resolveIp, h]

theorem resolveIp_miss (self : SimpleDnsServer) (domain : Str)
    (h : FindIpForDomain self domain = none) : resolveIp self domain = self.default_ip_ := by
  simp [resolveIp, h]

/-- The cycle on a datagram of at least 12 bytes whose name decodes inside the datagram. -/
theorem HandleDnsQuery_eq (host : ByteOrder) (uninit : in_addr) (self : SimpleDnsServer)
    (rx : Received) (query domain : List Byte) (position : Nat)
    (hlen : 12 ≤ rx.bytes_received) (hfit : rx.bytes_received.toNat ≤ rx.buffer.length)
    (hquery : query = rx.buffer.take rx.bytes_received.toNat)
    (hname : ExtractDomainName query 12 = .ok (domain, position)) :
    ∃ response trace,
      CreateDnsResponse host uninit self query (resolveIp self domain) = .ok response
        ∧ HandleDnsQuery host uninit self rx = .ok (self, trace)
        ∧ sentResponses trace = [(response, rx.client_addr)]
        ∧ decoderCalls trace = 1 := by
  have hql : 12 ≤ query.length := by
    rw [hquery, List.length_take]; omega
  have hsub : subspan rx.buffer 0 rx.bytes_received.toNat = .ok query := by
    rw [subspan_eq_ok_iff]
    exact ⟨by omega, by rw [hquery]; rfl⟩
  obtain ⟨response, hcreate⟩ :
      ∃ r, CreateDnsResponse host uninit self query (resolveIp self domain) = .ok r :=
    ⟨_, CreateDnsResponse_eq host uninit self query (resolveIp self domain) (by omega)⟩
  have hnot : ¬ rx.bytes_received < 12 := by omega
  refine ⟨response,
    [.decode query 12]
      ++ (if self.log_queries_ then [.println (.query rx.client_addr domain)] else [])
      ++ (if self.log_queries_ then
            (if resolveIp self domain ≠ self.default_ip_ then
              [.println (.found (resolveIp self domain) domain)]
             else [.println (.notFound domain (resolveIp self domain))])
          else [])
      ++ [.sendto response rx.client_addr], hcreate, ?_, ?_, ?_⟩
  · simp only [HandleDnsQuery, hnot, if_false, hsub, hname, hcreate]
  · simp only [sentResponses_append]
    cases self.log_queries_
    · rfl
    · by_cases hip : resolveIp self domain ≠ self.default_ip_ <;> simp [hip, sentResponses]
  · simp only [decoderCalls_append]
    cases self.log_queries_
    · rfl
    · by_cases hip : resolveIp self domain ≠ self.default_ip_ <;> simp [hip, decoderCalls]

/-- Claim C5, the part the code keeps on every host. For every record store, default
address and received datagram of at least 12 bytes whose question name decodes inside the
datagram, one cycle sends exactly one datagram, to the sender: `CreateDnsResponse(query, v)`
when the store maps the decoded name to `v`, `CreateDnsResponse(query, default_ip_)` when
no key equals the decoded name; the server state is unchanged. -/
theorem HandleDnsQuery_answers (host : ByteOrder) (uninit : in_addr) (self : SimpleDnsServer)
    (rx : Received) (query domain : List Byte) (position : Nat)
    (hlen : 12 ≤ rx.bytes_received) (hfit : rx.bytes_received.toNat ≤ rx.buffer.length)
    (hquery : query = rx.buffer.take rx.bytes_received.toNat)
    (hname : ExtractDomainName query 12 = .ok (domain, position))
    (hu : self.dns_records_.UniqueKeys) :
    ∃ response trace,
      HandleDnsQuery host uninit self rx = .ok (self, trace)
        ∧ sentResponses trace = [(response, rx.client_addr)]
        ∧ (∀ v, (domain, v) ∈ self.dns_records_.entries →
            CreateDnsResponse host uninit self query v = .ok response)
        ∧ ((∀ key ∈ self.dns_records_.entries.map Prod.fst, key ≠ domain) →
            CreateDnsResponse host uninit self query self.default_ip_ = .ok response) := by
  obtain ⟨response, trace, hcreate, hrun, hsent, _⟩ :=
    HandleDnsQuery_eq host uninit self rx query domain position hlen hfit hquery hname
  refine ⟨response, trace, hrun, hsent, ?_, ?_⟩
  · intro v hv
    have hfind : FindIpForDomain self domain = some v := by
      rw [FindIpForDomain_eq]; exact (findEntry_eq_some_iff _ hu domain v).mpr hv
    rw [← resolveIp_hit self domain v hfind]; exact hcreate
  · intro hmiss
    have hfind : FindIpForDomain self domain = none := by
      rw [FindIpForDomain_eq, findEntry_eq_none_iff]
      intro v hv
      exact hmiss domain (List.mem_map_of_mem Prod.fst hv) rfl
    rw [← resolveIp_miss self domain hfind]; exact hcreate

/-- Failing input for C5 (scenario B): on a little-endian host the query for
`unknown.org` is answered from the default address `127.0.0.1`, and the four address
bytes sent are `01 00 00 7F`, not `7F 00 00 01`. -/
theorem HandleDnsQuery_answers_witness :
    12 ≤ (received unknownQuery).bytes_received
      ∧ ExtractDomainName unknownQuery 12 = .ok (str "unknown.org", 25)
      ∧ (∃ response trace,
          HandleDnsQuery .littleEndian staleAddr exampleServer (received unknownQuery)
            = .ok (exampleServer, trace)
          ∧ sentResponses trace = [(response, (received unknownQuery).client_addr)]
          ∧ (∀ v, (str "unknown.org", v) ∈ exampleServer.dns_records_.entries →
              CreateDnsResponse .littleEndian staleAddr exampleServer unknownQuery v
                = .ok response)
          ∧ ((∀ key ∈ exampleServer.dns_records_.entries.map Prod.fst,
                key ≠ str "unknown.org") →
              CreateDnsResponse .littleEndian staleAddr exampleServer unknownQuery
                exampleServer.default_ip_ = .ok response))
      ∧ (HandleDnsQuery .littleEndian staleAddr exampleServer (received unknownQuery)).map
          (fun out => (sentResponses out.2).map (fun d => d.1.drop (unknownQuery.length + 12)))
          = .ok [[0x01, 0x00, 0x00, 0x7F]] :=
  ⟨by decide, by decide,
   HandleDnsQuery_answers .littleEndian staleAddr exampleServer (received unknownQuery)
     unknownQuery (str "unknown.org") 25 (by decide) (by decide) (by decide) (by decide)
     (by decide),
   by decide⟩

/-! ## The loop bound of the embedding is never reached -/

theorem loop_ne_outOfFuel (buffer : List Byte) :
    ∀ (fuel : Nat) (domain : Str) (position len : Nat), position < buffer.length →
      buffer.length - position ≤ fuel →
      ExtractDomainName.loop buffer fuel domain position len ≠ .error .outOfFuel := by
  intro fuel
  induction fuel with
  | zero => intro domain position len hp hf; omega
  | succ n ih =>
    intro domain position len hp hf
    rw [ExtractDomainName.loop]
    by_cases hz : len = 0
    · simp [hz]
    · by_cases hptr : len &&& 0xC0 = 0xC0
      · simp [hz, hptr]
      · simp only [hz, hptr, if_false]
        cases hsub : subspan buffer (position + 1) len with
        | error f =>
          have hf2 : f = .outOfBounds := by
            unfold subspan at hsub
            split at hsub
            · cases hsub
            · exact (Except.error.inj hsub).symm
          simp [hf2]
        | ok view =>
          cases hidx : index buffer (position + 1 + len) with
          | error f =>
            have hf2 : f = .outOfBounds := by
              unfold index at hidx
              split at hidx
              · cases hidx
              · exact (Except.error.inj hidx).symm
            simp [hf2]
          | ok b =>
            have hlt : position + 1 + len < buffer.length :=
              (List.getElem?_eq_some.mp ((index_eq_ok_iff _ _ _).mp hidx)).1
            exact ih _ _ _ hlt (by omega)

/-- The decoder of the embedding fails only by leaving the buffer, never by its loop bound. -/
theorem ExtractDomainName_ne_outOfFuel (buffer : List Byte) (position : Nat) :
    ExtractDomainName buffer position ≠ .error .outOfFuel := by
  unfold ExtractDomainName
  cases hidx : index buffer position with
  | error f =>
    have hf2 : f = .outOfBounds := by
      unfold index at hidx
      split at hidx
      · cases hidx
      · exact (Except.error.inj hidx).symm
    simp [hf2]
  | ok b =>
    have hlt : position < buffer.length :=
      (List.getElem?_eq_some.mp ((index_eq_ok_iff _ _ _).mp hidx)).1
    have h := loop_ne_outOfFuel buffer (buffer.length + 1) [] position b.val hlt (by omega)
    intro hc
    simp only at hc
    cases hloop : ExtractDomainName.loop buffer (buffer.length + 1) [] position b.val with
    | error f =>
      rw [hloop] at hc h
      exact h hc
    | ok st =>
      rw [hloop] at hc
      cases hc

/-! ## `AddRecord` -/

theorem findEntry_insertOrAssign_self (entries : List (Str × Str)) (key value : Str) :
    findEntry (insertOrAssign entries key value) key = some value := by
  induction entries with
  | nil => simp [insertOrAssign, findEntry]
  | cons e rest ih =>
    obtain ⟨k, v⟩ := e
    by_cases hk : k = key
    · simp [insertOrAssign, findEntry, hk]
    · simp [insertOrAssign, findEntry, hk, ih]

theorem findEntry_insertOrAssign_other (entries : List (Str × Str)) (key value other : Str)
    (h : other ≠ key) :
    findEntry (insertOrAssign entries key value) other = findEntry entries other := by
  induction entries with
  | nil => simp [insertOrAssign, findEntry, Ne.symm h]
  | cons e rest ih =>
    obtain ⟨k, v⟩ := e
    by_cases hk : k = key
    · subst hk
      simp [insertOrAssign, findEntry, Ne.symm h]
    · by_cases hko : k = other
      · subst hko
        simp [insertOrAssign, findEntry, hk]
      · simp [insertOrAssign, findEntry, hk, hko, ih]

theorem keys_insertOrAssign (entries : List (Str × Str)) (key value : Str) :
    (insertOrAssign entries key value).map Prod.fst
      = if key ∈ entries.map Prod.fst then entries.map Prod.fst
        else entries.map Prod.fst ++ [key] := by
  induction entries with
  | nil => simp [insertOrAssign]
  | cons e rest ih =>
    obtain ⟨k, v⟩ := e
    by_cases hk : k = key
    · subst hk
      simp [insertOrAssign]
    · have hk2 : ¬ key = k := fun hc => hk hc.symm
      simp only [insertOrAssign, hk, if_false, List.map_cons, ih, List.mem_cons, hk2, false_or]
      split <;> simp

theorem uniqueKeys_insertOrAssign (entries : List (Str × Str)) (key value : Str)
    (h : (entries.map Prod.fst).Nodup) :
    ((insertOrAssign entries key value).map Prod.fst).Nodup := by
  rw [keys_insertOrAssign]
  split
  · exact h
  · next hnot =>
    rw [List.nodup_append]
    refine ⟨h, List.nodup_singleton _, ?_⟩
    intro a ha hb
    rw [List.mem_singleton] at hb
    subst hb
    exact hnot ha

/-- Claim C13. `AddRecord` is an upsert: after `AddRecord(d, a)` the lookup of `d` returns
`a`, whatever the store held before; the lookup of every other name returns what it
returned before; the default address, the log flag, the running flag and the socket handle
are unchanged, and the keys of the store stay pairwise different. -/
theorem AddRecord_upsert (self : SimpleDnsServer) (d a : Str) :
    FindIpForDomain (AddRecord self d a) d = some a
      ∧ (∀ other, other ≠ d →
          FindIpForDomain (AddRecord self d a) other = FindIpForDomain self other)
      ∧ (AddRecord self d a).default_ip_ = self.default_ip_
      ∧ (AddRecord self d a).log_queries_ = self.log_queries_
      ∧ (AddRecord self d a).is_running_ = self.is_running_
      ∧ (AddRecord self d a).sockfd_ = self.sockfd_
      ∧ (self.dns_records_.UniqueKeys → (AddRecord self d a).dns_records_.UniqueKeys) := by
  refine ⟨?_, ?_, rfl, rfl, rfl, rfl, ?_⟩
  · rw [FindIpForDomain_eq]
    exact findEntry_insertOrAssign_self _ d a
  · intro other hne
    rw [FindIpForDomain_eq, FindIpForDomain_eq]
    exact findEntry_insertOrAssign_other _ d a other hne
  · intro hu
    exact uniqueKeys_insertOrAssign _ d a hu

/-! ## `Stop` -/

theorem Stop_Stop (self : SimpleDnsServer) : Stop (Stop self).1 = ((Stop self).1, []) := by
  unfold Stop
  by_cases h : self.sockfd_ ≠ INVALID_SOCKET
  · simp [h]
  · simp [h]

theorem StopTimes_after_Stop (n : Nat) :
    ∀ self : SimpleDnsServer, StopTimes n (Stop self).1 = ((Stop self).1, []) := by
  induction n with
  | zero => intro self; rfl
  | succ k ih =>
    intro self
    simp only [StopTimes, Stop_Stop, ih, List.append_nil]

theorem Initialize_success (self : SimpleDnsServer) (config_loader : ConfigLoader)
    (socketResult bindResult : Int)
    (h : (Initialize self config_loader socketResult bindResult).1 = true) :
    (Initialize self config_loader socketResult bindResult).2.1.sockfd_ = socketResult
      ∧ socketResult ≠ INVALID_SOCKET
      ∧ (Initialize self config_loader socketResult bindResult).2.2 = [] := by
  unfold Initialize at h ⊢
  by_cases hs : socketResult = INVALID_SOCKET
  · simp [hs] at h
  · by_cases hb : bindResult = SOCKET_ERROR
    · simp [hs, hb] at h
    · simp [hs, hb]

/-- Claim C14. For every state, after `Stop` the running flag is false and the socket
handle is `INVALID_SOCKET`; a second `Stop` returns the same state and closes nothing; and
after a successful `Initialize`, every sequence of one or more `Stop` calls closes the
socket handle exactly once (the handles closed are the one handle `socket` returned). -/
theorem Stop_idempotent (self : SimpleDnsServer) :
    (Stop self).1.is_running_ = false ∧ (Stop self).1.sockfd_ = INVALID_SOCKET
      ∧ Stop (Stop self).1 = ((Stop self).1, [])
      ∧ ∀ (config_loader : ConfigLoader) (socketResult bindResult : Int) (n : Nat),
          (Initialize self config_loader socketResult bindResult).1 = true → 1 ≤ n →
          (Initialize self config_loader socketResult bindResult).2.2 = []
            ∧ (StopTimes n (Initialize self config_loader socketResult bindResult).2.1).2
                = [socketResult]
            ∧ (StopTimes n (Initialize self config_loader socketResult bindResult).2.1).1.sockfd_
                = INVALID_SOCKET
            ∧ (StopTimes n (Initialize self config_loader socketResult
                bindResult).2.1).1.is_running_ = false := by
  have hstop : ∀ s : SimpleDnsServer,
      (Stop s).1.is_running_ = false ∧ (Stop s).1.sockfd_ = INVALID_SOCKET := by
    intro s
    unfold Stop
    by_cases h : s.sockfd_ ≠ INVALID_SOCKET
    · simp [h]
    · have h2 : s.sockfd_ = INVALID_SOCKET := not_not.mp h
      simp [h2]
  refine ⟨(hstop self).1, (hstop self).2, Stop_Stop self, ?_⟩
  intro config_loader socketResult bindResult n hinit hn
  obtain ⟨hfd, hvalid, hclosed⟩ := Initialize_success self config_loader socketResult bindResult hinit
  obtain ⟨k, rfl⟩ : ∃ k, n = k + 1 := ⟨n - 1, by omega⟩
  refine ⟨hclosed, ?_, ?_, ?_⟩
  · simp only [StopTimes, StopTimes_after_Stop, List.append_nil]
    unfold Stop
    rw [hfd]
    simp [hvalid]
  · simp only [StopTimes, StopTimes_after_Stop]
    exact (hstop _).2
  · simp only [StopTimes, StopTimes_after_Stop]
    exact (hstop _).1

/-! ## `ValidateConfig` -/

theorem validateRecords_iff (entries : List (Str × Str)) :
    validateRecords entries = true ↔ ∀ e ∈ entries, (inet_pton e.2).isSome = true := by
  induction entries with
  | nil => simp [validateRecords]
  | cons e rest ih =>
    obtain ⟨domain, ip⟩ := e
    cases hp : inet_pton ip with
    | none => simp [validateRecords, hp]
    | some addr => simp [validateRecords, hp, ih]

/-- Claim C16. `ValidateConfig` returns true exactly when the port is in 1..65535, the
default address parses and every address of the record mapping parses; so after a
successful validation the default address and every record address that `Initialize`
copies into the server parse. -/
theorem ValidateConfig_iff (config_loader : ConfigLoader) :
    (ValidateConfig config_loader = true
        ↔ (1 ≤ config_loader.server_config_.port ∧ config_loader.server_config_.port ≤ 65535)
          ∧ (inet_pton config_loader.server_config_.default_ip).isSome = true
          ∧ ∀ e ∈ config_loader.dns_records_.entries, (inet_pton e.2).isSome = true)
      ∧ (ValidateConfig config_loader = true →
          ∀ (self : SimpleDnsServer) (socketResult bindResult : Int),
            (inet_pton (Initialize self config_loader socketResult
                bindResult).2.1.default_ip_).isSome = true
              ∧ ∀ e ∈ (Initialize self config_loader socketResult
                  bindResult).2.1.dns_records_.entries, (inet_pton e.2).isSome = true) := by
  have hiff : ValidateConfig config_loader = true
      ↔ (1 ≤ config_loader.server_config_.port ∧ config_loader.server_config_.port ≤ 65535)
        ∧ (inet_pton config_loader.server_config_.default_ip).isSome = true
        ∧ ∀ e ∈ config_loader.dns_records_.entries, (inet_pton e.2).isSome = true := by
    unfold ValidateConfig
    by_cases hport : config_loader.server_config_.port < 1
        ∨ config_loader.server_config_.port > 65535
    · simp only [hport, if_true]
      constructor
      · intro h; cases h
      · intro h; omega
    · simp only [hport, if_false]
      have hrange : 1 ≤ config_loader.server_config_.port
          ∧ config_loader.server_config_.port ≤ 65535 := by omega
      cases hd : inet_pton config_loader.server_config_.default_ip with
      | none => simp
      | some addr => simp [hrange, validateRecords_iff]
  refine ⟨hiff, ?_⟩
  intro hvalid self socketResult bindResult
  obtain ⟨_, hdef, hrec⟩ := hiff.mp hvalid
  have hst : (Initialize self config_loader socketResult bindResult).2.1.default_ip_
        = config_loader.server_config_.default_ip
      ∧ (Initialize self config_loader socketResult bindResult).2.1.dns_records_
        = config_loader.dns_records_ := by
    unfold Initialize
    by_cases hs : socketResult = INVALID_SOCKET
    · simp [hs]
    · by_cases hb : bindResult = SOCKET_ERROR <;> simp [hs, hb]
  rw [hst.1, hst.2]
  exact ⟨hdef, hrec⟩

/-! ## Labels followed by a compression pointer -/

/-- The loop over well-formed labels arrives at the byte that follows them. -/
theorem loop_labels_then (labels : List (List Byte)) :
    ∀ (pre post : List Byte) (domain : Str) (fuel : Nat) (t b : Byte) (rest : List Byte),
      WellFormedLabels labels →
      encodeLabels labels ++ t :: post = b :: rest →
      ExtractDomainName.loop (pre ++ (encodeLabels labels ++ t :: post)) (fuel + labels.length)
          domain pre.length b.val
        = ExtractDomainName.loop (pre ++ (encodeLabels labels ++ t :: post)) fuel
            (domain ++ dotTerminated labels) (pre.length + (encodeLabels labels).length)
            t.val := by
  induction labels with
  | nil =>
    intro pre post domain fuel t b rest _ hb
    simp only [encodeLabels, List.nil_append, List.cons.injEq] at hb
    obtain ⟨rfl, _⟩ := hb
    simp [dotTerminated, encodeLabels]
  | cons l ls ih =>
    intro pre post domain fuel t b rest hwf hb
    have hl := hwf l (List.mem_cons_self _ _)
    have hwf2 : WellFormedLabels ls := fun x hx => hwf x (List.mem_cons_of_mem _ hx)
    simp only [encodeLabels, List.cons_append, List.cons.injEq] at hb
    obtain ⟨rfl, _⟩ := hb
    have hv : (Fin.ofNat l.length : Byte).val = l.length := ofNat_val_of_lt _ (by omega)
    obtain ⟨b2, rest2, hb2⟩ : ∃ b2 rest2, encodeLabels ls ++ t :: post = b2 :: rest2 := by
      cases ls with
      | nil => exact ⟨t, post, rfl⟩
      | cons l2 ls2 => exact ⟨Fin.ofNat l2.length, _, rfl⟩
    have hbuf : pre ++ (encodeLabels (l :: ls) ++ t :: post)
        = (pre ++ [Fin.ofNat l.length]) ++ (l ++ (encodeLabels ls ++ t :: post)) := by
      simp [encodeLabels]
    have hbuf2 : pre ++ (encodeLabels (l :: ls) ++ t :: post)
        = (pre ++ [Fin.ofNat l.length] ++ l) ++ (encodeLabels ls ++ t :: post) := by
      simp [encodeLabels]
    have hsub : subspan (pre ++ (encodeLabels (l :: ls) ++ t :: post)) (pre.length + 1) l.length
        = .ok l := by
      rw [hbuf]
      have := subspan_append (pre ++ [Fin.ofNat l.length]) l (encodeLabels ls ++ t :: post)
      simpa using this
    have hlen : (pre ++ [Fin.ofNat l.length] ++ l).length = pre.length + 1 + l.length := by
      simp only [List.length_append, List.length_cons, List.length_nil]
    have hidx : index (pre ++ (encodeLabels (l :: ls) ++ t :: post)) (pre.length + 1 + l.length)
        = .ok b2 := by
      rw [hbuf2, hb2, ← hlen]
      exact index_append (pre ++ [Fin.ofNat l.length] ++ l) rest2 b2
    have hnz : ¬ (l.length = 0) := by omega
    have hnp : ¬ (l.length &&& 0xC0 = 0xC0) := by
      have h := pointer_test_iff (Fin.ofNat l.length)
      rw [hv] at h
      intro hc
      have := h.mp hc
      omega
    have hfuel : fuel + (l :: ls).length = (fuel + ls.length) + 1 := by
      simp only [List.length_cons]; omega
    rw [hfuel, ExtractDomainName.loop, hv]
    simp only [hnz, hnp, if_false, hsub, hidx]
    have hrec := ih (pre ++ [Fin.ofNat l.length] ++ l) post (domain ++ l ++ [dot]) fuel t b2
      rest2 hwf2 hb2
    rw [hlen, ← hbuf2] at hrec
    rw [hrec]
    have hpos : pre.length + 1 + l.length + (encodeLabels ls).length
        = pre.length + (encodeLabels (l :: ls)).length := by
      simp only [encodeLabels, List.length_cons, List.length_append]; omega
    have hdom : domain ++ l ++ [dot] ++ dotTerminated ls = domain ++ dotTerminated (l :: ls) := by
      simp [dotTerminated]
    rw [hpos, hdom]

/-- The decoder on well-formed labels followed by a byte with both top bits set. -/
theorem ExtractDomainName_labels_pointer (labels : List (List Byte)) (pre post : List Byte)
    (t : Byte) (hwf : WellFormedLabels labels) (ht : 0xC0 ≤ t.val) :
    ExtractDomainName (pre ++ encodeLabels labels ++ t :: post) pre.length
      = .ok (dotJoin labels, pre.length + (encodeLabels labels).length + 3) := by
  have hbuf : pre ++ encodeLabels labels ++ t :: post
      = pre ++ (encodeLabels labels ++ t :: post) := by simp
  obtain ⟨b, rest, hb⟩ : ∃ b rest, encodeLabels labels ++ t :: post = b :: rest := by
    cases labels with
    | nil => exact ⟨t, post, rfl⟩
    | cons l ls => exact ⟨Fin.ofNat l.length, _, rfl⟩
  have hidx : index (pre ++ (encodeLabels labels ++ t :: post)) pre.length = .ok b := by
    rw [hb]; exact index_append pre rest b
  have hle := length_le_encodeLabels labels
  have hfuel : (pre ++ (encodeLabels labels ++ t :: post)).length + 1
      = ((pre ++ (encodeLabels labels ++ t :: post)).length - labels.length) + 1
        + labels.length := by
    simp only [List.length_append, List.length_cons]; omega
  have hloop := loop_labels_then labels pre post []
    (((pre ++ (encodeLabels labels ++ t :: post)).length - labels.length) + 1) t b rest hwf hb
  rw [← hfuel] at hloop
  have hand : t.val &&& 0xC0 = 0xC0 := (pointer_test_iff t).mpr ht
  have hnz : ¬ (t.val = 0) := by omega
  have hfinal : ExtractDomainName.loop (pre ++ (encodeLabels labels ++ t :: post))
      (((pre ++ (encodeLabels labels ++ t :: post)).length - labels.length) + 1)
      ([] ++ dotTerminated labels) (pre.length + (encodeLabels labels).length) t.val
      = .ok (dotTerminated labels, pre.length + (encodeLabels labels).length + 2) := by
    rw [ExtractDomainName.loop]
    simp [hnz, hand]
  rw [hfinal] at hloop
  rw [hbuf]
  simp only [ExtractDomainName, hidx, hloop, popTrailingDot_dotTerminated]

/-- Claim C15. For every list of labels (1 to 63 bytes each) encoded from offset `p` and
followed by a length byte with both top bits set, `ExtractDomainName(buffer, p)` returns
the labels joined with `'.'`, and the returned name is the same whatever the pointer
bytes are and whatever the buffer holds before the name and after the pointer's first
byte (the pointer's second byte and any offset the pointer can designate outside the
labels themselves). -/
theorem ExtractDomainName_pointer_truncates (labels : List (List Byte))
    (pre post buffer : List Byte) (p : Nat) (t : Byte) (hk : 1 ≤ labels.length)
    (hwf : WellFormedLabels labels) (ht : 0xC0 ≤ t.val)
    (hbuf : buffer = pre ++ encodeLabels labels ++ t :: post) (hp : p = pre.length) :
    (ExtractDomainName buffer p).map Prod.fst = .ok (dotJoin labels)
      ∧ dotJoin labels ≠ []
      ∧ ∀ (pre2 post2 : List Byte) (t2 : Byte), pre2.length = pre.length → 0xC0 ≤ t2.val →
          (ExtractDomainName (pre2 ++ encodeLabels labels ++ t2 :: post2) p).map Prod.fst
            = (ExtractDomainName buffer p).map Prod.fst := by
  subst hbuf hp
  refine ⟨?_, ?_, ?_⟩
  · rw [ExtractDomainName_labels_pointer labels pre post t hwf ht]; rfl
  · obtain ⟨l, ls, rfl⟩ : ∃ l ls, labels = l :: ls := by
      cases labels with
      | nil => simp at hk
      | cons l ls => exact ⟨l, ls, rfl⟩
    have hl := hwf l (List.mem_cons_self _ _)
    intro hc
    have hlen : (dotTerminated (l :: ls)).length = 1 := by
      rw [dotTerminated_eq, hc]; rfl
    simp only [dotTerminated, List.length_append, List.length_cons, List.length_nil] at hlen
    omega
  · intro pre2 post2 t2 hlen ht2
    rw [← hlen, ExtractDomainName_labels_pointer labels pre2 post2 t2 hwf ht2,
      hlen, ExtractDomainName_labels_pointer labels pre post t hwf ht]

/-- Witness for C15: `www`, `example` and then the pointer `C0 0C` decode to
`www.example`. -/
theorem ExtractDomainName_pointer_truncates_witness :
    (ExtractDomainName truncatedQuery 12).map Prod.fst = .ok (str "www.example")
      ∧ ((ExtractDomainName truncatedQuery 12).map Prod.fst
            = .ok (dotJoin [str "www", str "example"])
          ∧ dotJoin [str "www", str "example"] ≠ []
          ∧ ∀ (pre2 post2 : List Byte) (t2 : Byte), pre2.length = sampleHeader.length →
              0xC0 ≤ t2.val →
              (ExtractDomainName (pre2 ++ encodeLabels [str "www", str "example"] ++ t2 :: post2)
                  12).map Prod.fst
                = (ExtractDomainName truncatedQuery 12).map Prod.fst) :=
  ⟨by decide,
   ExtractDomainName_pointer_truncates [str "www", str "example"] sampleHeader [0x0C, 0, 1, 0, 1]
     truncatedQuery 12 0xC0 (by decide) (by decide) (by decide) (by decide) (by decide)⟩

/-! ## Progress and termination of the decoder loop -/

/-- The loop is the iteration of its body. -/
theorem loop_eq_body (buffer : List Byte) (fuel : Nat) (domain : Str) (position len : Nat) :
    ExtractDomainName.loop buffer (fuel + 1) domain position len
      = match ExtractDomainName.body buffer domain position len with
        | .error f => .error f
        | .ok (.exit domain2 position2) => .ok (domain2, position2)
        | .ok (.next domain2 position2 len2) =>
          ExtractDomainName.loop buffer fuel domain2 position2 len2 := by
  rw [ExtractDomainName.loop]
  unfold ExtractDomainName.body
  by_cases hz : len = 0
  · simp [hz]
  · by_cases hptr : len &&& 0xC0 = 0xC0
    · simp [hz, hptr]
    · simp only [hz, hptr, if_false]
      cases subspan buffer (position + 1) len with
      | error f => rfl
      | ok view =>
        cases index buffer (position + 1 + len) with
        | error f => rfl
        | ok b => rfl

/-- A pass that starts the next iteration has consumed a length byte and a label of at
least one byte, and the next length byte was read inside the buffer. -/
theorem body_next (buffer : List Byte) (domain : Str) (position len : Nat) (domain2 : Str)
    (position2 len2 : Nat)
    (h : ExtractDomainName.body buffer domain position len = .ok (.next domain2 position2 len2)) :
    position + 2 ≤ position2 ∧ position2 < buffer.length := by
  unfold ExtractDomainName.body at h
  by_cases hz : len = 0
  · simp [hz] at h
  · by_cases hptr : len &&& 0xC0 = 0xC0
    · simp [hz, hptr] at h
    · simp only [hz, hptr, if_false] at h
      cases hsub : subspan buffer (position + 1) len with
      | error f => simp [hsub] at h
      | ok view =>
        cases hidx : index buffer (position + 1 + len) with
        | error f => simp [hsub, hidx] at h
        | ok b =>
          simp only [hsub, hidx, Except.ok.injEq, LoopStep.next.injEq] at h
          obtain ⟨_, hpos, _⟩ := h
          have hlt : position + 1 + len < buffer.length :=
            (List.getElem?_eq_some.mp ((index_eq_ok_iff _ _ _).mp hidx)).1
          omega

/-- A pass that leaves the loop does not move the position backwards. -/
theorem body_exit (buffer : List Byte) (domain : Str) (position len : Nat) (domain2 : Str)
    (position2 : Nat)
    (h : ExtractDomainName.body buffer domain position len = .ok (.exit domain2 position2)) :
    position ≤ position2 := by
  unfold ExtractDomainName.body at h
  by_cases hz : len = 0
  · simp only [hz, if_true, Except.ok.injEq, LoopStep.exit.injEq] at h
    omega
  · by_cases hptr : len &&& 0xC0 = 0xC0
    · simp only [hz, hptr, if_true, if_false, Except.ok.injEq, LoopStep.exit.injEq] at h
      omega
    · simp only [hz, hptr, if_false] at h
      cases hsub : subspan buffer (position + 1) len with
      | error f => simp [hsub] at h
      | ok view =>
        cases hidx : index buffer (position + 1 + len) with
        | error f => simp [hsub, hidx] at h
        | ok b => simp [hsub, hidx] at h

theorem iterations_bound (buffer : List Byte) :
    ∀ (fuel : Nat) (domain : Str) (position len : Nat), position < buffer.length →
      2 * ExtractDomainName.iterations buffer fuel domain position len + position
        < buffer.length := by
  intro fuel
  induction fuel with
  | zero => intro domain position len hp; simp [ExtractDomainName.iterations]; exact hp
  | succ n ih =>
    intro domain position len hp
    rw [ExtractDomainName.iterations]
    cases hbody : ExtractDomainName.body buffer domain position len with
    | error f => simp; exact hp
    | ok step =>
      cases step with
      | exit d2 p2 => simp; exact hp
      | next d2 p2 len2 =>
        obtain ⟨hadv, hlt⟩ := body_next buffer domain position len d2 p2 len2 hbody
        have := ih d2 p2 len2 hlt
        simp only
        omega

theorem loop_final_position (buffer : List Byte) :
    ∀ (fuel : Nat) (domain : Str) (position len : Nat) (r : Str × Nat),
      ExtractDomainName.loop buffer fuel domain position len = .ok r → position ≤ r.2 := by
  intro fuel
  induction fuel with
  | zero => intro domain position len r h; simp [ExtractDomainName.loop] at h
  | succ n ih =>
    intro domain position len r h
    rw [loop_eq_body] at h
    cases hbody : ExtractDomainName.body buffer domain position len with
    | error f => simp [hbody] at h
    | ok step =>
      cases step with
      | exit d2 p2 =>
        simp only [hbody, Except.ok.injEq] at h
        have := body_exit buffer domain position len d2 p2 hbody
        rw [← h]
        exact this
      | next d2 p2 len2 =>
        simp only [hbody] at h
        have h1 := (body_next buffer domain position len d2 p2 len2 hbody).1
        have h2 := ih d2 p2 len2 r h
        omega

/-- The loop needs exactly as many passes as `iterations` counts, and one more test. -/
theorem loop_iterations (buffer : List Byte) :
    ∀ (fuel : Nat) (domain : Str) (position len : Nat),
      ExtractDomainName.loop buffer fuel domain position len ≠ .error .outOfFuel →
      ExtractDomainName.loop buffer
          (ExtractDomainName.iterations buffer fuel domain position len + 1) domain position len
        = ExtractDomainName.loop buffer fuel domain position len := by
  intro fuel
  induction fuel with
  | zero => intro domain position len h; simp [ExtractDomainName.loop] at h
  | succ n ih =>
    intro domain position len h
    rw [loop_eq_body] at h
    rw [loop_eq_body, loop_eq_body, ExtractDomainName.iterations]
    cases hbody : ExtractDomainName.body buffer domain position len with
    | error f => rfl
    | ok step =>
      cases step with
      | exit d2 p2 => rfl
      | next d2 p2 len2 =>
        simp only [hbody] at h ⊢
        exact ih d2 p2 len2 h

/-- Claim C18. With bounds-checked reads `ExtractDomainName` terminates on every buffer
and start offset: every pass through the loop that does not stop moves `position` forward
by at least 2 and keeps it inside the buffer, a pass that stops does not move it back, the
number of passes that do not stop is at most `(len(buffer) - start) / 2`, and the position
returned is beyond the start offset. -/
theorem ExtractDomainName_terminates (buffer : List Byte) (start : Nat) :
    ExtractDomainName buffer start ≠ .error .outOfFuel
      ∧ (∀ domain position len domain2 position2 len2,
          ExtractDomainName.body buffer domain position len
              = .ok (.next domain2 position2 len2) →
            position + 2 ≤ position2 ∧ position2 < buffer.length)
      ∧ (∀ domain position len domain2 position2,
          ExtractDomainName.body buffer domain position len = .ok (.exit domain2 position2) →
            position ≤ position2)
      ∧ (∀ b, buffer[start]? = some b →
          ExtractDomainName.iterations buffer (buffer.length + 1) [] start b.val
              ≤ (buffer.length - start) / 2
            ∧ ExtractDomainName.loop buffer
                (ExtractDomainName.iterations buffer (buffer.length + 1) [] start b.val + 1)
                [] start b.val
              = ExtractDomainName.loop buffer (buffer.length + 1) [] start b.val)
      ∧ (∀ name position, ExtractDomainName buffer start = .ok (name, position) →
          start < position) := by
  refine ⟨ExtractDomainName_ne_outOfFuel buffer start, body_next buffer, body_exit buffer,
    ?_, ?_⟩
  · intro b hb
    have hlt : start < buffer.length := (List.getElem?_eq_some.mp hb).1
    have hbound := iterations_bound buffer (buffer.length + 1) [] start b.val hlt
    refine ⟨by omega, ?_⟩
    exact loop_iterations buffer _ _ _ _
      (loop_ne_outOfFuel buffer (buffer.length + 1) [] start b.val hlt (by omega))
  · intro name position h
    unfold ExtractDomainName at h
    cases hidx : index buffer start with
    | error f => simp [hidx] at h
    | ok b =>
      simp only [hidx] at h
      cases hloop : ExtractDomainName.loop buffer (buffer.length + 1) [] start b.val with
      | error f => simp [hloop] at h
      | ok st =>
        simp only [hloop, Except.ok.injEq, Prod.mk.injEq] at h
        have := loop_final_position buffer _ _ _ _ st hloop
        omega

/-! ## Reads outside the received bytes -/

/-- A fault of the decoder is a fault of the cycle: no branch of `HandleDnsQuery` handles
a name that does not fit the datagram. -/
theorem HandleDnsQuery_fault (host : ByteOrder) (uninit : in_addr) (self : SimpleDnsServer)
    (rx : Received) (query : List Byte) (f : Fault)
    (hlen : 12 ≤ rx.bytes_received) (hfit : rx.bytes_received.toNat ≤ rx.buffer.length)
    (hquery : query = rx.buffer.take rx.bytes_received.toNat)
    (hname : ExtractDomainName query 12 = .error f) :
    HandleDnsQuery host uninit self rx = .error f := by
  have hsub : subspan rx.buffer 0 rx.bytes_received.toNat = .ok query := by
    rw [subspan_eq_ok_iff]
    exact ⟨by omega, by rw [hquery]; rfl⟩
  have hnot : ¬ rx.bytes_received < 12 := by omega
  simp only [HandleDnsQuery, hnot, if_false, hsub, hname]

/-- Claim C11, on the code. When a label length byte (not zero, top bits not both set)
announces at least as many bytes as remain after it in the buffer, so that the label or
the length byte after it lies past the end, `ExtractDomainName` performs the access
outside the buffer; and a cycle whose datagram carries such a name at offset 12 has no
defined outcome: it neither reports a malformed name nor drops the query. -/
theorem ExtractDomainName_overlong_label (buffer : List Byte) (p : Nat) (b : Byte)
    (hb : buffer[p]? = some b) (hnz : b.val ≠ 0) (hlabel : b.val < 0xC0)
    (hlong : buffer.length ≤ p + 1 + b.val) :
    ExtractDomainName buffer p = .error .outOfBounds
      ∧ ∀ (host : ByteOrder) (uninit : in_addr) (self : SimpleDnsServer) (rx : Received),
          p = 12 → 12 ≤ rx.bytes_received → rx.bytes_received.toNat ≤ rx.buffer.length →
          buffer = rx.buffer.take rx.bytes_received.toNat →
          HandleDnsQuery host uninit self rx = .error .outOfBounds := by
  have hdec : ExtractDomainName buffer p = .error .outOfBounds := by
    have hidx : index buffer p = .ok b := (index_eq_ok_iff _ _ _).mpr hb
    have hnp : ¬ (b.val &&& 0xC0 = 0xC0) := by
      intro hc
      have := (pointer_test_iff b).mp hc
      omega
    unfold ExtractDomainName
    simp only [hidx]
    rw [ExtractDomainName.loop]
    simp only [hnz, hnp, if_false]
    by_cases hfits : p + 1 + b.val ≤ buffer.length
    · have hsub : subspan buffer (p + 1) b.val = .ok ((buffer.drop (p + 1)).take b.val) :=
        (subspan_eq_ok_iff _ _ _ _).mpr ⟨hfits, rfl⟩
      have hnone : buffer[p + 1 + b.val]? = none := List.getElem?_eq_none (by omega)
      simp only [hsub, index, hnone]
    · simp only [subspan, hfits, if_false]
  refine ⟨hdec, ?_⟩
  intro host uninit self rx hp hlen hfit hquery
  subst hp
  exact HandleDnsQuery_fault host uninit self rx buffer _ hlen hfit hquery hdec

/-- Failing input for C11: a 14-byte datagram whose label announces 5 bytes where 1
remains. -/
theorem ExtractDomainName_overlong_label_witness :
    overlongLabelQuery[12]? = some 5 ∧ overlongLabelQuery.length ≤ 12 + 1 + (5 : Byte).val
      ∧ (ExtractDomainName overlongLabelQuery 12 = .error .outOfBounds
        ∧ ∀ (host : ByteOrder) (uninit : in_addr) (self : SimpleDnsServer) (rx : Received),
            12 = 12 → 12 ≤ rx.bytes_received → rx.bytes_received.toNat ≤ rx.buffer.length →
            overlongLabelQuery = rx.buffer.take rx.bytes_received.toNat →
            HandleDnsQuery host uninit self rx = .error .outOfBounds)
      ∧ HandleDnsQuery .littleEndian staleAddr exampleServer (received overlongLabelQuery)
          = .error .outOfBounds :=
  ⟨by decide, by decide,
   ExtractDomainName_overlong_label overlongLabelQuery 12 5 (by decide) (by decide) (by decide)
     (by decide),
   by decide⟩

/-- Claim C17, on the code. For a datagram that passes the length check, the read of the
first length byte at offset 12 lies inside the received bytes exactly when at least 13
bytes were received; for a datagram of exactly 12 bytes the read is outside them and the
cycle has no defined outcome. -/
theorem HandleDnsQuery_first_read (host : ByteOrder) (uninit : in_addr)
    (self : SimpleDnsServer) (rx : Received) (query : List Byte)
    (hlen : 12 ≤ rx.bytes_received) (hfit : rx.bytes_received.toNat ≤ rx.buffer.length)
    (hquery : query = rx.buffer.take rx.bytes_received.toNat) :
    ((∃ b, index query 12 = .ok b) ↔ 13 ≤ rx.bytes_received)
      ∧ (rx.bytes_received = 12 →
          index query 12 = .error .outOfBounds
            ∧ HandleDnsQuery host uninit self rx = .error .outOfBounds) := by
  have hql : query.length = rx.bytes_received.toNat := by
    rw [hquery, List.length_take]; omega
  constructor
  · constructor
    · rintro ⟨b, hb⟩
      have hlt : 12 < query.length :=
        (List.getElem?_eq_some.mp ((index_eq_ok_iff _ _ _).mp hb)).1
      omega
    · intro h13
      have hlt : 12 < query.length := by omega
      exact ⟨query[12], (index_eq_ok_iff _ _ _).mpr (List.getElem?_eq_getElem hlt)⟩
  · intro h12
    have hnone : query[12]? = none := List.getElem?_eq_none (by omega)
    have hidx : index query 12 = .error .outOfBounds := by
      simp only [index, hnone]
    refine ⟨hidx, ?_⟩
    apply HandleDnsQuery_fault host uninit self rx query _ hlen hfit hquery
    simp only [ExtractDomainName, hidx]

/-- Failing input for C17: a datagram of exactly 12 bytes (a header without question). -/
theorem HandleDnsQuery_first_read_witness :
    12 ≤ (received sampleHeader).bytes_received
      ∧ (((∃ b, index sampleHeader 12 = .ok b) ↔ 13 ≤ (received sampleHeader).bytes_received)
        ∧ ((received sampleHeader).bytes_received = 12 →
            index sampleHeader 12 = .error .outOfBounds
              ∧ HandleDnsQuery .littleEndian staleAddr exampleServer (received sampleHeader)
                  = .error .outOfBounds))
      ∧ (received sampleHeader).bytes_received = 12
      ∧ index sampleHeader 12 = .error .outOfBounds :=
  ⟨by decide,
   HandleDnsQuery_first_read .littleEndian staleAddr exampleServer (received sampleHeader)
     sampleHeader (by decide) (by decide) (by decide),
   by decide, by decide⟩

/-! ## Both addresses unparseable -/

/-- What the member functions do in a state whose default address does not parse, when
the resolved address does not parse either: the builder does not fail, and the cycle
sends a response of `len(query) + 16` bytes whose four address bytes are the bytes the
local `addr` held before the two `inet_pton` calls (in the order the host's `ntohl` and
`bit_cast` leave them). -/
theorem HandleDnsQuery_both_unparseable (host : ByteOrder) (uninit : in_addr)
    (self : SimpleDnsServer) (rx : Received) (query domain : List Byte) (position : Nat)
    (hlen : 12 ≤ rx.bytes_received) (hfit : rx.bytes_received.toNat ≤ rx.buffer.length)
    (hquery : query = rx.buffer.take rx.bytes_received.toNat)
    (hname : ExtractDomainName query 12 = .ok (domain, position))
    (hip : inet_pton (resolveIp self domain) = none)
    (hdefault : inet_pton self.default_ip_ = none) :
    ∃ response trace,
      CreateDnsResponse host uninit self query (resolveIp self domain) = .ok response
        ∧ HandleDnsQuery host uninit self rx = .ok (self, trace)
        ∧ sentResponses trace = [(response, rx.client_addr)]
        ∧ response.length = query.length + 16
        ∧ response.drop (query.length + 12)
            = (match host with
               | .bigEndian => [uninit.m0, uninit.m1, uninit.m2, uninit.m3]
               | .littleEndian => [uninit.m3, uninit.m2, uninit.m1, uninit.m0]) := by
  obtain ⟨response, trace, hcreate, hrun, hsent, _⟩ :=
    HandleDnsQuery_eq host uninit self rx query domain position hlen hfit hquery hname
  have hql : 12 ≤ query.length := by
    rw [hquery, List.length_take]; omega
  have heq := CreateDnsResponse_eq host uninit self query (resolveIp self domain) (by omega)
  have hresp : response = patchHeader query ++ answer
      ++ bit_cast host (ntohl host (s_addr host uninit)) := by
    have haddr : resolveAddr uninit self.default_ip_ (resolveIp self domain) = uninit := by
      simp only [resolveAddr, hip, hdefault]
    rw [haddr, hcreate] at heq
    exact Except.ok.inj heq
  refine ⟨response, trace, hcreate, hrun, hsent, ?_, ?_⟩
  · rw [hresp]
    simp only [List.length_append, length_patchHeader, length_bit_cast]
    rfl
  · rw [hresp, bit_cast_ntohl]
    have hlen12 : (patchHeader query ++ answer).length = query.length + 12 := by
      simp only [List.length_append, length_patchHeader]; rfl
    rw [← hlen12, List.drop_left]

/-- Witness for C13: replacing the address of `example.com`, and adding `new.org` next
to it. -/
theorem AddRecord_upsert_witness :
    FindIpForDomain (AddRecord exampleServer (str "example.com") (str "10.0.0.9"))
        (str "example.com") = some (str "10.0.0.9")
      ∧ FindIpForDomain (AddRecord exampleServer (str "new.org") (str "10.0.0.7"))
          (str "new.org") = some (str "10.0.0.7")
      ∧ FindIpForDomain (AddRecord exampleServer (str "new.org") (str "10.0.0.7"))
          (str "example.com") = some (str "10.0.0.5")
      ∧ (AddRecord exampleServer (str "new.org") (str "10.0.0.7")).dns_records_.UniqueKeys :=
  ⟨(AddRecord_upsert exampleServer (str "example.com") (str "10.0.0.9")).1,
   (AddRecord_upsert exampleServer (str "new.org") (str "10.0.0.7")).1,
   ((AddRecord_upsert exampleServer (str "new.org") (str "10.0.0.7")).2.1 (str "example.com")
      (by decide)).trans (by decide),
   (AddRecord_upsert exampleServer (str "new.org") (str "10.0.0.7")).2.2.2.2.2.2 (by decide)⟩

/-- Witness for C14: `Initialize` succeeds with the handle 5; three `Stop` calls close the
handle 5 once. -/
theorem Stop_idempotent_witness :
    (Initialize {} exampleConfig 5 0).1 = true
      ∧ (Initialize {} exampleConfig 5 0).2.2 = []
      ∧ (StopTimes 3 (Initialize {} exampleConfig 5 0).2.1).2 = [5]
      ∧ (StopTimes 3 (Initialize {} exampleConfig 5 0).2.1).1.sockfd_ = INVALID_SOCKET
      ∧ (StopTimes 3 (Initialize {} exampleConfig 5 0).2.1).1.is_running_ = false :=
  ⟨by decide, (Stop_idempotent {}).2.2.2 exampleConfig 5 0 3 (by decide) (by decide)⟩

/-- Witness for C16: a configuration that validates, and two that do not. -/
theorem ValidateConfig_iff_witness :
    ValidateConfig exampleConfig = true
      ∧ ((inet_pton (Initialize {} exampleConfig 5 0).2.1.default_ip_).isSome = true
        ∧ ∀ e ∈ (Initialize {} exampleConfig 5 0).2.1.dns_records_.entries,
            (inet_pton e.2).isSome = true)
      ∧ ValidateConfig { exampleConfig with server_config_ := { port := 0 } } = false
      ∧ ValidateConfig { exampleConfig with server_config_ := { port := 65536 } } = false
      ∧ ValidateConfig { exampleConfig with
          dns_records_ := ⟨[(str "a.com", str "not-an-ip")]⟩ } = false :=
  ⟨by decide, (ValidateConfig_iff exampleConfig).2 (by decide) {} 5 0, by decide, by decide,
   by decide⟩

/-- Witness for C18: the decoder makes two passes over the 29-byte query for
`example.com` from offset 12, within the bound (29 - 12) / 2 = 8. -/
theorem ExtractDomainName_terminates_witness :
    exampleQuery[12]? = some 7
      ∧ ExtractDomainName.iterations exampleQuery (exampleQuery.length + 1) [] 12 7 = 2
      ∧ (ExtractDomainName.iterations exampleQuery (exampleQuery.length + 1) [] 12
            (7 : Byte).val ≤ (exampleQuery.length - 12) / 2
          ∧ ExtractDomainName.loop exampleQuery
              (ExtractDomainName.iterations exampleQuery (exampleQuery.length + 1) [] 12
                (7 : Byte).val + 1) [] 12 (7 : Byte).val
            = ExtractDomainName.loop exampleQuery (exampleQuery.length + 1) [] 12
                (7 : Byte).val)
      ∧ 12 < 25 :=
  ⟨by decide, by decide,
   (ExtractDomainName_terminates exampleQuery 12).2.2.2.1 7 (by decide),
   (ExtractDomainName_terminates exampleQuery 12).2.2.2.2 (str "example.com") 25 (by decide)⟩

end DnsServer
